import Mathlib

/-!
# NOVA microhypervisor: UTCB frames and VMX control block

A shallow embedding of `include/utcb.h` and `src/vmx.cpp`.

Memory is word addressed: a `Mem` maps the address of a machine word
(`mword`, 8 bytes) to the value stored there.  A `Utcb *` is the word address
of the first word of its page.  Pointer arithmetic on `mword *` is addition
of word addresses.
-/

set_option linter.dupNamespace false

namespace NOVA

/-! ## Machine model -/

/-- Word-addressed memory: the value of the machine word at each word address. -/
abbrev Mem := Nat → Nat

/-- Store of one machine word. -/
def Mem.write (m : Mem) (a v : Nat) : Mem := fun x => if x = a then v else m x

/-- Modelled from the spec: `PAGE_SIZE` (a configuration constant of the build, not in the
sources at hand) is 4096 bytes. -/
def PAGE_SIZE : Nat := 4096

/-- Modelled from the spec: `sizeof (mword)`, the machine word is 8 bytes. -/
def sizeof_mword : Nat := 8

/-- Modelled from the spec: `sizeof (Crd)`; `crd.h` is not at hand, a capability range
descriptor is a single machine word (the header comment of `Utcb` counts `items`, `xlt`,
`del`, `tls` as four words). -/
def sizeof_Crd : Nat := 8

/-- Number of values of an `mword`. -/
def MWORD : Nat := 2 ^ 64

/-- Subtraction of `mword`s, which wraps modulo `2^64`. -/
def msub (a b : Nat) : Nat := (a + MWORD - b % MWORD) % MWORD

/-- The `sizeof (Utcb_head)`: `uint16 top, bottom` (4 bytes, padded to the 8-byte alignment of
`items`), `mword items`, `Crd xlt, del`, `mword tls`. -/
def sizeof_Utcb_head : Nat := 8 + sizeof_mword + 2 * sizeof_Crd + sizeof_mword

/-- Number of machine words in a page. -/
def PAGE_WORDS : Nat := PAGE_SIZE / sizeof_mword

/-- A `Utcb` is one page from the buddy allocator: its address is page aligned. -/
def page_aligned (u : Nat) : Prop := u % PAGE_WORDS = 0

instance (u : Nat) : Decidable (page_aligned u) := by
  unfold page_aligned; infer_instance

/-! ## `Utcb_segment` -/

/-- The fields of `Utcb_segment`. -/
structure Utcb_segment where
  sel : Nat
  ar : Nat
  limit : Nat
  base : Nat
deriving DecidableEq, Repr

/-- `Utcb_segment::set_vmx (mword s, mword b, mword l, mword a)`; the casts to `uint16` and
`uint32` are reductions modulo `2^16` and `2^32`, and the `mword` `b` is stored in the `uint64`
`base` as it is. -/
def Utcb_segment.set_vmx (_this : Utcb_segment) (s b l a : Nat) : Utcb_segment :=
  { sel := s % 2 ^ 16
    ar := (((a >>> 4) &&& 0x1f00) ||| (a &&& 0xff)) % 2 ^ 16
    limit := l % 2 ^ 32
    base := b }

/-! ## `Utcb` -/

namespace Utcb

/-- `Utcb_head::top` of the header at word address `u`: the `uint16` at byte offset 0. -/
def top (m : Mem) (u : Nat) : Nat := m u % 2 ^ 16

/-- `Utcb_head::bottom` of the header at word address `u`: the `uint16` at byte offset 2. -/
def bottom (m : Mem) (u : Nat) : Nat := m u / 2 ^ 16 % 2 ^ 16

/-- `Utcb_head::items` of the header at word address `u`. -/
def items (m : Mem) (u : Nat) : Nat := m (u + 1)

/-- `Utcb_head::xlt` of the header at word address `u`. -/
def xlt (m : Mem) (u : Nat) : Nat := m (u + 2)

/-- `Utcb_head::del` of the header at word address `u`. -/
def del (m : Mem) (u : Nat) : Nat := m (u + 3)

/-- `Utcb_head::tls` of the header at word address `u`. -/
def tls (m : Mem) (u : Nat) : Nat := m (u + 4)

/-- Word address of `mr[i]` of the `Utcb` at word address `u`: `Utcb_data` follows
`Utcb_head`. -/
def mr (u i : Nat) : Nat := u + sizeof_Utcb_head / sizeof_mword + i

/-- `Utcb::words`. -/
def words : Nat := (PAGE_SIZE - sizeof_Utcb_head) / sizeof_mword

/-- `Utcb::boff`. -/
def boff (m : Mem) (u : Nat) : Nat := bottom m u &&& (PAGE_SIZE / (2 * sizeof_mword) - 1)

/-- `Utcb::toff`. -/
def toff (m : Mem) (u : Nat) : Nat := top m u &&& (PAGE_SIZE / (4 * sizeof_mword) - 1)

/-- `Utcb::cur_frame`: the `Utcb *` that lies `boff()` words after `this`. -/
def cur_frame (m : Mem) (u : Nat) : Nat := u + boff m u

/-- `Utcb::maxui`. -/
def maxui (m : Mem) (u : Nat) : Nat := msub words (boff m u + toff m u) / 1

/-- `Utcb::ucnt`. -/
def ucnt (m : Mem) (u : Nat) : Nat := items m (cur_frame m u) % 2 ^ 16

/-- `Utcb::tcnt`. -/
def tcnt (m : Mem) (u : Nat) : Nat := (items m (cur_frame m u) >>> 16) % 2 ^ 16

/-- `Utcb::ti`. -/
def ti (m : Mem) (u : Nat) : Nat := min (msub words (boff m u + toff m u) / 2) (tcnt m u)

/-- `Utcb::ui`. -/
def ui (m : Mem) (u : Nat) : Nat := min (maxui m u) (ucnt m u)

/-- The copy loop of `Utcb::save`: `for (i = 0; i < n; i++) dst->mr[i] = thiz->mr[i]`. -/
def save_loop (dst thiz n : Nat) (m : Mem) : Mem :=
  (List.range n).foldl (fun m i => m.write (mr dst i) (m (mr thiz i))) m

/-- `Utcb::save (Utcb *dst)` called on the `Utcb` at `this`. -/
def save (m : Mem) (this dst : Nat) : Mem :=
  let n := min (maxui m dst) (ui m this)
  let thiz := cur_frame m this
  let dst := cur_frame m dst
  let m := m.write (dst + 1) (items m thiz)
  save_loop dst thiz n m

/-- Modelled from the spec: `sizeof (Xfer)`; the class is declared in a header that is not at
hand, a typed item occupies two machine words. -/
def sizeof_Xfer : Nat := 2 * sizeof_mword

/-- `Utcb::xfer`: the word address of the slot, `this` taken as an `Xfer *`, advanced by
`PAGE_SIZE / sizeof (Xfer)` slots and moved back by `1 + toff () / 2` slots. -/
def xfer (m : Mem) (u : Nat) : Nat :=
  u + sizeof_Xfer / sizeof_mword * (PAGE_SIZE / sizeof_Xfer)
    - sizeof_Xfer / sizeof_mword * (1 + toff m u / 2)

/-- A memory with a source buffer at word address 0 (`top = 1`, `bottom = 2`, three untyped
items in its current frame) and a destination buffer at word address 512 that is filled with
the sentinel `0xA5A5` behind its first word. -/
def sample_mem : Mem := fun a =>
  if a = 0 then 0x20001 else if a = 3 then 3 else if a < 512 then 100 + a
  else if a = 512 then 0 else 0xA5A5

/-- A memory whose every word is `0xffffffff`: both cursors of a buffer are `0xffff`. -/
def full_mem : Mem := fun _ => 0xffffffff

/-- A memory with a buffer at word address 0 whose `items` word packs 3 untyped and 2 typed
items below a stray bit 48. -/
def packed_mem : Mem := fun a => if a = 1 then 0x1000000020003 else 0

/-- A memory with a source buffer at word address 0 whose cursors are at their largest offsets
(`top = 127`, `bottom = 255`) and whose current frame claims 200 untyped items, and an empty
destination buffer at word address 512. -/
def crowded_mem : Mem := fun a =>
  if a = 0 then 0xff007f else if a = 256 then 200 else 0

end Utcb

/-! ## `Vmcs` -/

/-- Bitwise complement of an `mword`. -/
def mnot (x : Nat) : Nat := MWORD - 1 - x % MWORD

/-- Bitwise complement of an `unsigned int`, which is 32 bits wide; converted to an `mword`
afterwards it has no bit above bit 31. -/
def not32 (x : Nat) : Nat := 2 ^ 32 - 1 - x % 2 ^ 32

/-- Conversion to `uint32`. -/
def u32 (x : Nat) : Nat := x % 2 ^ 32

/-- Conversion to `mword`. -/
def mw (x : Nat) : Nat := x % MWORD

/-- The model-specific registers that `vmx.cpp` reads. -/
inductive Msr.Register
  | IA32_FEATURE_CONTROL
  | IA32_VMX_BASIC
  | IA32_VMX_CTRL_PIN
  | IA32_VMX_CTRL_CPU0
  | IA32_VMX_CTRL_EXIT
  | IA32_VMX_CTRL_ENTRY
  | IA32_VMX_CR0_FIXED0
  | IA32_VMX_CR0_FIXED1
  | IA32_VMX_CR4_FIXED0
  | IA32_VMX_CR4_FIXED1
  | IA32_VMX_CTRL_CPU1
  | IA32_VMX_EPT_VPID
  | IA32_VMX_TRUE_PIN
  | IA32_VMX_TRUE_CPU0
  | IA32_VMX_TRUE_EXIT
  | IA32_VMX_TRUE_ENTRY
deriving DecidableEq, Repr

/-- The fields of the control structure that the constructor writes. -/
inductive Vmcs.Encoding
  | PIN_EXEC_CTRL | EXI_CONTROLS | ENT_CONTROLS
  | PF_ERROR_MASK | PF_ERROR_MATCH | CR3_TARGET_COUNT
  | VMCS_LINK_PTR | VMCS_LINK_PTR_HI
  | VPID | EPTP | EPTP_HI
  | IO_BITMAP_A | IO_BITMAP_B
  | HOST_SEL_CS | HOST_SEL_SS | HOST_SEL_DS | HOST_SEL_ES | HOST_SEL_TR
  | HOST_CR3 | HOST_CR0 | HOST_CR4
  | HOST_BASE_TR | HOST_BASE_GDTR | HOST_BASE_IDTR
  | HOST_SYSENTER_CS | HOST_SYSENTER_ESP | HOST_SYSENTER_EIP
  | HOST_RSP | HOST_RIP
deriving DecidableEq, Repr

/-- The constants, bit-field layouts and addresses that `vmx.cpp` takes from headers which are
not at hand (`vmx.h`, `cpu.h`, `hip.h`, `ept.h`, `bits.h`, `selectors.h`, the linker symbols).
Every definition below is parametric in them. -/
structure Consts where
  PIN_EXTINT : Nat
  PIN_NMI : Nat
  PIN_VIRT_NMI : Nat
  EXI_INTA : Nat
  CPU_HLT : Nat
  CPU_IO : Nat
  CPU_IO_BITMAP : Nat
  CPU_SECONDARY : Nat
  CPU_EPT : Nat
  CPU_VPID : Nat
  CPU_URG : Nat
  /-- Enumerator `Cpu::CR0_PG`; the enumerators of `Cpu` fit 32 bits, so that an expression
  over them is an `unsigned int`. -/
  CR0_PG : Nat
  /-- Enumerator `Cpu::CR0_PE`, of the same enumeration. -/
  CR0_PE : Nat
  CR0_TS : Nat
  SEL_KERN_CODE : Nat
  SEL_KERN_DATA : Nat
  SEL_TSS_RUN : Nat
  /-- Feature flag `Hip::FEAT_VMX`. -/
  FEAT_VMX : Nat
  /-- Address `&Tss::run`. -/
  tss_run : Nat
  /-- Address `&Tss::run.sp0`. -/
  tss_run_sp0 : Nat
  /-- Address `Gdt::gdt`. -/
  gdt : Nat
  /-- Address `Idt::idt`. -/
  idt : Nat
  /-- Address `&entry_sysenter`. -/
  entry_sysenter : Nat
  /-- Address `&entry_vmx`. -/
  entry_vmx : Nat
  /-- Value of `Ept::max()`. -/
  Ept_max : Nat
  /-- Value of `Ept::bpl()`. -/
  Ept_bpl : Nat
  /-- Function `bit_scan_reverse` of `bits.h`. -/
  bit_scan_reverse : Nat → Int
  /-- Bit-field `revision` of `vmx_basic`, read from its `val`. -/
  basic_revision : Nat → Nat
  /-- Bit-field `ctrl` of `vmx_basic`, read from its `val`. -/
  basic_ctrl : Nat → Bool
  /-- Bit-field `super` of `vmx_ept_vpid`, read from its `val`. -/
  ept_vpid_super : Nat → Nat
  /-- Bit-field `invept` of `vmx_ept_vpid`, read from its `val`. -/
  ept_vpid_invept : Nat → Bool
  /-- Bit-field `invvpid` of `vmx_ept_vpid`, read from its `val`. -/
  ept_vpid_invvpid : Nat → Bool

/-- Modelled from the spec: the unions `vmx_ctrl_pin`, `vmx_ctrl_cpu`, `vmx_ctrl_exi`,
`vmx_ctrl_ent` of `vmx.h` (not at hand), a pair of set and clear bit masks: the 64-bit
capability word `val` overlaid with `uint32 set, clr`, `set` being the low half. -/
structure Ctrl where
  val : Nat
deriving DecidableEq, Repr

/-- Member `set` of a control policy. -/
def Ctrl.set (c : Ctrl) : Nat := c.val % 2 ^ 32

/-- Member `clr` of a control policy. -/
def Ctrl.clr (c : Ctrl) : Nat := c.val / 2 ^ 32 % 2 ^ 32

/-- Assignment to member `set`, which leaves `clr`. -/
def Ctrl.with_set (c : Ctrl) (x : Nat) : Ctrl := ⟨u32 x + c.clr * 2 ^ 32⟩

/-- Assignment to member `clr`, which leaves `set`. -/
def Ctrl.with_clr (c : Ctrl) (x : Nat) : Ctrl := ⟨c.set + u32 x * 2 ^ 32⟩

/-- What the processor is asked to do with a control structure. -/
inductive Vmcs.Op
  /-- Call of `clear()` on the structure at the address. -/
  | vmclear (p : Nat)
  /-- Call of `make_current()` on the structure at the address. -/
  | vmptrld (p : Nat)
  /-- Call of `write (enc, val)`, which goes to the current structure. -/
  | vmwrite (enc : Vmcs.Encoding) (val : Nat)
deriving DecidableEq, Repr

/-- The static members of `Vmcs` and the state of the collaborators that `vmx.cpp` reads and
writes. -/
structure State where
  /-- Static `Vmcs::current`, an address. -/
  current : Nat
  /-- Static `Vmcs::vpid_ctr`, an `unsigned`. -/
  vpid_ctr : Nat
  /-- Member `val` of `Vmcs::basic`. -/
  basic : Nat
  /-- Member `val` of `Vmcs::ept_vpid`. -/
  ept_vpid : Nat
  ctrl_pin : Ctrl
  /-- Element `Vmcs::ctrl_cpu[0]`. -/
  ctrl_cpu0 : Ctrl
  /-- Element `Vmcs::ctrl_cpu[1]`. -/
  ctrl_cpu1 : Ctrl
  ctrl_exi : Ctrl
  ctrl_ent : Ctrl
  fix_cr0_set : Nat
  fix_cr0_clr : Nat
  fix_cr4_set : Nat
  fix_cr4_clr : Nat
  /-- Hardware register CR0, read by `get_cr0` and written by `set_cr0`. -/
  cr0 : Nat
  /-- Hardware register CR4, read by `get_cr4` and written by `set_cr4`. -/
  cr4 : Nat
  /-- Content of the model-specific registers. -/
  msr : Msr.Register → Nat
  /-- Value of `Cpu::feature (Cpu::FEAT_VMX)`. -/
  cpu_feat_vmx : Bool
  /-- Feature word of the capability registry `Hip`. -/
  hip : Nat
  /-- Flag `Cmdline::vtlb`. -/
  vtlb : Bool
  /-- Flag `Cmdline::novpid`. -/
  novpid : Bool
  /-- Static `Ept::ord`. -/
  ept_ord : Nat
  /-- Requests to the processor, oldest first. -/
  ops : List Vmcs.Op
  /-- Control blocks constructed so far, oldest first: address and `rev`. -/
  blocks : List (Nat × Nat)

/-- `Msr::read<uint32>`. -/
def Msr.read32 (s : State) (r : Msr.Register) : Nat := s.msr r % 2 ^ 32

/-- `Msr::read<uint64>`. -/
def Msr.read64 (s : State) (r : Msr.Register) : Nat := s.msr r % 2 ^ 64

/-- `Msr::read<mword>`. -/
def Msr.readm (s : State) (r : Msr.Register) : Nat := mw (s.msr r)

/-- Modelled from the spec: `Hip::remove` of `hip.h` (not at hand) retracts an advertised
feature: the bits of the flag are cleared in the feature word. -/
def Hip.remove (s : State) (f : Nat) : State := { s with hip := u32 (s.hip &&& mnot f) }

namespace Vmcs

/-- Modelled from the spec: `has_secondary()` of `vmx.h` (not at hand): the secondary controls
can be set, that is `CPU_SECONDARY` is in the clear mask of `ctrl_cpu[0]`. -/
def has_secondary (K : Consts) (s : State) : Bool := s.ctrl_cpu0.clr &&& K.CPU_SECONDARY != 0

/-- Modelled from the spec: `has_ept()` of `vmx.h` (not at hand): `CPU_EPT` is in the clear
mask of `ctrl_cpu[1]`. -/
def has_ept (K : Consts) (s : State) : Bool := s.ctrl_cpu1.clr &&& K.CPU_EPT != 0

/-- Modelled from the spec: `has_vpid()` of `vmx.h` (not at hand): `CPU_VPID` is in the clear
mask of `ctrl_cpu[1]`. -/
def has_vpid (K : Consts) (s : State) : Bool := s.ctrl_cpu1.clr &&& K.CPU_VPID != 0

/-- Modelled from the spec: `has_urg()` of `vmx.h` (not at hand): `CPU_URG` is in the clear
mask of `ctrl_cpu[1]`. -/
def has_urg (K : Consts) (s : State) : Bool := s.ctrl_cpu1.clr &&& K.CPU_URG != 0

/-- Modelled from the spec: `clear()` of `vmx.h` (not at hand) clears the hardware structure at
`this`. -/
def clear (s : State) (this : Nat) : State := { s with ops := s.ops ++ [Op.vmclear this] }

/-- Modelled from the spec: `make_current()` of `vmx.h` (not at hand) marks the structure at
`this` as the current one. -/
def make_current (s : State) (this : Nat) : State :=
  { s with current := this, ops := s.ops ++ [Op.vmptrld this] }

/-- Modelled from the spec: `write (enc, val)` of `vmx.h` (not at hand) writes the `mword` `val`
into the field `enc` of the current structure. -/
def write (s : State) (enc : Encoding) (val : Nat) : State :=
  { s with ops := s.ops ++ [Op.vmwrite enc (mw val)] }

/-- The member initialiser `rev (basic.revision)`, shared by both constructors: the block at
`this` comes into being with the revision identifier of `basic`. -/
def init_rev (K : Consts) (s : State) (this : Nat) : State :=
  { s with blocks := s.blocks ++ [(this, u32 (K.basic_revision s.basic))] }

/-- `Vmcs::Vmcs (mword esp, mword bmp, mword cr3, uint64 eptp)` constructing at `this`. -/
def Vmcs (K : Consts) (s : State) (this esp bmp cr3 eptp : Nat) : State :=
  let s := init_rev K s this
  let s := clear s this
  let s := make_current s this
  let pin := u32 (K.PIN_EXTINT ||| K.PIN_NMI ||| K.PIN_VIRT_NMI)
  let pin := u32 (pin ||| s.ctrl_pin.set)
  let pin := u32 (pin &&& s.ctrl_pin.clr)
  let s := write s .PIN_EXEC_CTRL pin
  let exi := u32 K.EXI_INTA
  let exi := u32 (exi ||| s.ctrl_exi.set)
  let exi := u32 (exi &&& s.ctrl_exi.clr)
  let s := write s .EXI_CONTROLS exi
  let ent := 0
  let ent := u32 (ent ||| s.ctrl_ent.set)
  let ent := u32 (ent &&& s.ctrl_ent.clr)
  let s := write s .ENT_CONTROLS ent
  let s := write s .PF_ERROR_MASK 0
  let s := write s .PF_ERROR_MATCH 0
  let s := write s .CR3_TARGET_COUNT 0
  let s := write s .VMCS_LINK_PTR (mnot 0)
  let s := write s .VMCS_LINK_PTR_HI (mnot 0)
  let s := { s with vpid_ctr := u32 (s.vpid_ctr + 1) }
  let s := write s .VPID s.vpid_ctr
  let s := write s .EPTP (mw eptp ||| mw (msub K.Ept_max 1 <<< 3) ||| 6)
  let s := write s .EPTP_HI (mw ((eptp % 2 ^ 64) >>> 32))
  let s := write s .IO_BITMAP_A bmp
  let s := write s .IO_BITMAP_B (mw (bmp + PAGE_SIZE))
  let s := write s .HOST_SEL_CS K.SEL_KERN_CODE
  let s := write s .HOST_SEL_SS K.SEL_KERN_DATA
  let s := write s .HOST_SEL_DS K.SEL_KERN_DATA
  let s := write s .HOST_SEL_ES K.SEL_KERN_DATA
  let s := write s .HOST_SEL_TR K.SEL_TSS_RUN
  let s := write s .HOST_CR3 cr3
  let s := write s .HOST_CR0 (s.cr0 ||| K.CR0_TS)
  let s := write s .HOST_CR4 s.cr4
  let s := write s .HOST_BASE_TR K.tss_run
  let s := write s .HOST_BASE_GDTR K.gdt
  let s := write s .HOST_BASE_IDTR K.idt
  let s := write s .HOST_SYSENTER_CS K.SEL_KERN_CODE
  let s := write s .HOST_SYSENTER_ESP K.tss_run_sp0
  let s := write s .HOST_SYSENTER_EIP K.entry_sysenter
  let s := write s .HOST_RSP esp
  write s .HOST_RIP K.entry_vmx

/-- Modelled from the spec: the default constructor `Vmcs()` of `vmx.h` (not at hand), run by
`new Vmcs` on the page `this` that the allocator hands out: the initial instance, which takes
its revision identifier from `basic`. -/
def Vmcs_root (K : Consts) (s : State) (this : Nat) : State := init_rev K s this

/-- `Vmcs::init()`; `root` is the page that `new Vmcs` obtains. The `trace` at the end only
prints. In line 125 the complement is that of the `unsigned int` expression
`Cpu::CR0_PG | Cpu::CR0_PE`, taken at 32 bits and then widened with zeros for the `&=` on the
`mword`, so that bits 32 to 63 of `fix_cr0_set` are cleared as well. In lines 131 and 133 the
result goes into the `uint32` member `clr`, where the width of the complement makes no
difference. -/
def init (K : Consts) (s : State) (root : Nat) : State :=
  if !s.cpu_feat_vmx || (Msr.read32 s .IA32_FEATURE_CONTROL &&& 0x5) != 0x5 then
    Hip.remove s K.FEAT_VMX
  else
    let s := { s with fix_cr0_set := Msr.readm s .IA32_VMX_CR0_FIXED0 }
    let s := { s with fix_cr0_clr := mnot (Msr.readm s .IA32_VMX_CR0_FIXED1) }
    let s := { s with fix_cr4_set := Msr.readm s .IA32_VMX_CR4_FIXED0 }
    let s := { s with fix_cr4_clr := mnot (Msr.readm s .IA32_VMX_CR4_FIXED1) }
    let s := { s with basic := Msr.read64 s .IA32_VMX_BASIC }
    let s := { s with ctrl_exi := ⟨Msr.read64 s
      (if K.basic_ctrl s.basic then .IA32_VMX_TRUE_EXIT else .IA32_VMX_CTRL_EXIT)⟩ }
    let s := { s with ctrl_ent := ⟨Msr.read64 s
      (if K.basic_ctrl s.basic then .IA32_VMX_TRUE_ENTRY else .IA32_VMX_CTRL_ENTRY)⟩ }
    let s := { s with ctrl_pin := ⟨Msr.read64 s
      (if K.basic_ctrl s.basic then .IA32_VMX_TRUE_PIN else .IA32_VMX_CTRL_PIN)⟩ }
    let s := { s with ctrl_cpu0 := ⟨Msr.read64 s
      (if K.basic_ctrl s.basic then .IA32_VMX_TRUE_CPU0 else .IA32_VMX_CTRL_CPU0)⟩ }
    let s := if has_secondary K s then
        { s with ctrl_cpu1 := ⟨Msr.read64 s .IA32_VMX_CTRL_CPU1⟩ }
      else s
    let s := if has_ept K s || has_vpid K s then
        { s with ept_vpid := Msr.read64 s .IA32_VMX_EPT_VPID }
      else s
    let s := if has_ept K s then
        { s with ept_ord := min s.ept_ord (msub (mw ((Int.toNat
            ((K.bit_scan_reverse (mw (K.ept_vpid_super s.ept_vpid)) + 2) % (MWORD : Int)))
              * K.Ept_bpl)) 1) }
      else s
    let s := if has_urg K s then
        { s with fix_cr0_set := s.fix_cr0_set &&& not32 (K.CR0_PG ||| K.CR0_PE) }
      else s
    let set0 := s.ctrl_cpu0.set ||| (K.CPU_HLT ||| K.CPU_IO ||| K.CPU_IO_BITMAP ||| K.CPU_SECONDARY)
    let s := { s with ctrl_cpu0 := s.ctrl_cpu0.with_set set0 }
    let set1 := s.ctrl_cpu1.set ||| (K.CPU_VPID ||| K.CPU_URG)
    let s := { s with ctrl_cpu1 := s.ctrl_cpu1.with_set set1 }
    let clr1 := s.ctrl_cpu1.clr &&& mnot (K.CPU_EPT ||| K.CPU_URG)
    let s := if s.vtlb || !K.ept_vpid_invept s.ept_vpid then
        { s with ctrl_cpu1 := s.ctrl_cpu1.with_clr clr1 }
      else s
    let s := if s.novpid || !K.ept_vpid_invvpid s.ept_vpid then
        { s with ctrl_cpu1 := s.ctrl_cpu1.with_clr (s.ctrl_cpu1.clr &&& mnot K.CPU_VPID) }
      else s
    let s := { s with cr0 := mw ((s.cr0 &&& mnot s.fix_cr0_clr) ||| s.fix_cr0_set) }
    let s := { s with cr4 := mw ((s.cr4 &&& mnot s.fix_cr4_clr) ||| s.fix_cr4_set) }
    Vmcs_root K s root

/-! The statements of `init` behind the early return, one step each; `init_steps` shows that
`init` is their composition. -/

/-- Lines 107 to 110 of `init`: the fixed masks of CR0 and CR4. -/
def init_fixed (s : State) : State :=
  let s := { s with fix_cr0_set := Msr.readm s .IA32_VMX_CR0_FIXED0 }
  let s := { s with fix_cr0_clr := mnot (Msr.readm s .IA32_VMX_CR0_FIXED1) }
  let s := { s with fix_cr4_set := Msr.readm s .IA32_VMX_CR4_FIXED0 }
  { s with fix_cr4_clr := mnot (Msr.readm s .IA32_VMX_CR4_FIXED1) }

/-- Lines 112 to 116 of `init`: `basic` and the four policies that depend on `basic.ctrl`. -/
def init_basic (K : Consts) (s : State) : State :=
  let s := { s with basic := Msr.read64 s .IA32_VMX_BASIC }
  let s := { s with ctrl_exi := ⟨Msr.read64 s
    (if K.basic_ctrl s.basic then .IA32_VMX_TRUE_EXIT else .IA32_VMX_CTRL_EXIT)⟩ }
  let s := { s with ctrl_ent := ⟨Msr.read64 s
    (if K.basic_ctrl s.basic then .IA32_VMX_TRUE_ENTRY else .IA32_VMX_CTRL_ENTRY)⟩ }
  let s := { s with ctrl_pin := ⟨Msr.read64 s
    (if K.basic_ctrl s.basic then .IA32_VMX_TRUE_PIN else .IA32_VMX_CTRL_PIN)⟩ }
  { s with ctrl_cpu0 := ⟨Msr.read64 s
    (if K.basic_ctrl s.basic then .IA32_VMX_TRUE_CPU0 else .IA32_VMX_CTRL_CPU0)⟩ }

/-- Lines 118 and 119 of `init`: the secondary processor-based policy. -/
def init_secondary (K : Consts) (s : State) : State :=
  if has_secondary K s then
    { s with ctrl_cpu1 := ⟨Msr.read64 s .IA32_VMX_CTRL_CPU1⟩ }
  else s

/-- Lines 120 and 121 of `init`: the capability word `ept_vpid`. -/
def init_ept_vpid (K : Consts) (s : State) : State :=
  if has_ept K s || has_vpid K s then
    { s with ept_vpid := Msr.read64 s .IA32_VMX_EPT_VPID }
  else s

/-- Lines 122 and 123 of `init`: the bound on `Ept::ord`. -/
def init_ept_ord (K : Consts) (s : State) : State :=
  if has_ept K s then
    { s with ept_ord := min s.ept_ord (msub (mw ((Int.toNat
        ((K.bit_scan_reverse (mw (K.ept_vpid_super s.ept_vpid)) + 2) % (MWORD : Int)))
          * K.Ept_bpl)) 1) }
  else s

/-- Lines 124 and 125 of `init`: the relaxation for unrestricted guests; the complement is
taken at the 32 bits of `Cpu::CR0_PG | Cpu::CR0_PE` and widened with zeros. -/
def init_urg (K : Consts) (s : State) : State :=
  if has_urg K s then
    { s with fix_cr0_set := s.fix_cr0_set &&& not32 (K.CR0_PG ||| K.CR0_PE) }
  else s

/-- Lines 127 and 128 of `init`: the bits that the kernel always sets. -/
def init_set (K : Consts) (s : State) : State :=
  let set0 := s.ctrl_cpu0.set ||| (K.CPU_HLT ||| K.CPU_IO ||| K.CPU_IO_BITMAP ||| K.CPU_SECONDARY)
  let s := { s with ctrl_cpu0 := s.ctrl_cpu0.with_set set0 }
  let set1 := s.ctrl_cpu1.set ||| (K.CPU_VPID ||| K.CPU_URG)
  { s with ctrl_cpu1 := s.ctrl_cpu1.with_set set1 }

/-- Lines 130 and 131 of `init`: no EPT and no unrestricted guest without `invept` or with
`vtlb`. -/
def init_vtlb (K : Consts) (s : State) : State :=
  let clr1 := s.ctrl_cpu1.clr &&& mnot (K.CPU_EPT ||| K.CPU_URG)
  if s.vtlb || !K.ept_vpid_invept s.ept_vpid then
    { s with ctrl_cpu1 := s.ctrl_cpu1.with_clr clr1 }
  else s

/-- Lines 132 and 133 of `init`: no VPID without `invvpid` or with `novpid`. -/
def init_novpid (K : Consts) (s : State) : State :=
  if s.novpid || !K.ept_vpid_invvpid s.ept_vpid then
    { s with ctrl_cpu1 := s.ctrl_cpu1.with_clr (s.ctrl_cpu1.clr &&& mnot K.CPU_VPID) }
  else s

/-- Lines 135 and 136 of `init`: CR0 and CR4 are forced into the fixed masks. -/
def init_cr (s : State) : State :=
  let s := { s with cr0 := mw ((s.cr0 &&& mnot s.fix_cr0_clr) ||| s.fix_cr0_set) }
  { s with cr4 := mw ((s.cr4 &&& mnot s.fix_cr4_clr) ||| s.fix_cr4_set) }

/-- The state of `init` once the capability words are read, behind line 123. -/
def init_probed (K : Consts) (s : State) : State :=
  init_ept_ord K (init_ept_vpid K (init_secondary K (init_basic K (init_fixed s))))

/-- The state of `init` once the policies are final, behind line 133. -/
def init_policy (K : Consts) (s : State) : State :=
  init_novpid K (init_vtlb K (init_set K (init_urg K (init_probed K s))))

/-- The arguments of one construction: `this`, `esp`, `bmp`, `cr3`, `eptp`. -/
structure Args where
  this : Nat
  esp : Nat
  bmp : Nat
  cr3 : Nat
  eptp : Nat
deriving DecidableEq, Repr

/-- Constructions of `Vmcs (esp, bmp, cr3, eptp)` executed one after another. -/
def constructions (K : Consts) (s : State) (l : List Args) : State :=
  l.foldl (fun s a => Vmcs K s a.this a.esp a.bmp a.cr3 a.eptp) s

/-- The values that a sequence of requests writes to the field `enc`, oldest first. -/
def written (enc : Encoding) (ops : List Op) : List Nat :=
  ops.filterMap (fun o => match o with
    | .vmwrite e v => if e = enc then some v else none
    | _ => none)

/-- The constants as the processor manual and the kernel's Intel x86-64 build have them; the
addresses are placeholders. -/
def sample_consts : Consts where
  PIN_EXTINT := 1 <<< 0
  PIN_NMI := 1 <<< 3
  PIN_VIRT_NMI := 1 <<< 5
  EXI_INTA := 1 <<< 15
  CPU_HLT := 1 <<< 7
  CPU_IO := 1 <<< 24
  CPU_IO_BITMAP := 1 <<< 25
  CPU_SECONDARY := 1 <<< 31
  CPU_EPT := 1 <<< 1
  CPU_VPID := 1 <<< 5
  CPU_URG := 1 <<< 7
  CR0_PG := 1 <<< 31
  CR0_PE := 1 <<< 0
  CR0_TS := 1 <<< 3
  SEL_KERN_CODE := 0x8
  SEL_KERN_DATA := 0x10
  SEL_TSS_RUN := 0x30
  FEAT_VMX := 1 <<< 1
  tss_run := 0x1000
  tss_run_sp0 := 0x1004
  gdt := 0x2000
  idt := 0x3000
  entry_sysenter := 0x4000
  entry_vmx := 0x5000
  Ept_max := 4
  Ept_bpl := 9
  bit_scan_reverse := fun x => if x = 0 then -1 else (Nat.log2 x : Int)
  basic_revision := fun v => v % 2 ^ 32
  basic_ctrl := fun v => v.testBit 55
  ept_vpid_super := fun v => v / 2 ^ 16 % 4
  ept_vpid_invept := fun v => v.testBit 20
  ept_vpid_invvpid := fun v => v.testBit 32

/-- The state at boot: the statics are zero, nothing has been requested or constructed. -/
def boot_state : State where
  current := 0
  vpid_ctr := 0
  basic := 0
  ept_vpid := 0
  ctrl_pin := ⟨0⟩
  ctrl_cpu0 := ⟨0⟩
  ctrl_cpu1 := ⟨0⟩
  ctrl_exi := ⟨0⟩
  ctrl_ent := ⟨0⟩
  fix_cr0_set := 0
  fix_cr0_clr := 0
  fix_cr4_set := 0
  fix_cr4_clr := 0
  cr0 := 0x80000011
  cr4 := 0x20
  msr := fun _ => 0
  cpu_feat_vmx := false
  hip := 0x7
  vtlb := false
  novpid := false
  ept_ord := 0
  ops := []
  blocks := []

/-- A state in which VMX is present and enabled, with fixed masks and processor-based
capabilities reported by the registers, and a pin-based policy whose `set` (`0xff`) asks for
bits that its `clr` (`0x0f`) forbids. -/
def vmx_state : State :=
  { boot_state with
    cpu_feat_vmx := true
    ctrl_pin := ⟨0x0000000f000000ff⟩
    msr := fun r => match r with
      | .IA32_FEATURE_CONTROL => 0x5
      | .IA32_VMX_CTRL_CPU0 => 0xffffffff00000000
      | .IA32_VMX_CTRL_CPU1 => 0xffffffff00000000
      | .IA32_VMX_CR0_FIXED0 => 0x80000021
      | .IA32_VMX_CR0_FIXED1 => 0xffffffff
      | _ => 0 }

/-- A state in which VMX is present and enabled but the registers report no secondary
processor-based controls. -/
def plain_vmx_state : State :=
  { boot_state with
    cpu_feat_vmx := true
    msr := fun r => match r with
      | .IA32_FEATURE_CONTROL => 0x5
      | .IA32_VMX_CR0_FIXED0 => 0x80000021
      | .IA32_VMX_CR0_FIXED1 => 0xffffffff
      | _ => 0 }

/-- A state in which VMX is present and enabled and the registers report every secondary
control together with `invept` (bit 20) and `invvpid` (bit 32). -/
def ept_vmx_state : State :=
  { boot_state with
    cpu_feat_vmx := true
    msr := fun r => match r with
      | .IA32_FEATURE_CONTROL => 0x5
      | .IA32_VMX_CTRL_CPU0 => 0xffffffff00000000
      | .IA32_VMX_CTRL_CPU1 => 0xffffffff00000000
      | .IA32_VMX_EPT_VPID => 0x100100000
      | .IA32_VMX_CR0_FIXED0 => 0x80000021
      | .IA32_VMX_CR0_FIXED1 => 0xffffffff
      | .IA32_VMX_CR4_FIXED0 => 0x2000
      | .IA32_VMX_CR4_FIXED1 => 0x3767ff
      | _ => 0 }

/-- The state `ept_vmx_state` with a register `IA32_VMX_CR0_FIXED0` that has every bit of its
upper half set. -/
def wide_vmx_state : State :=
  { boot_state with
    cpu_feat_vmx := true
    msr := fun r => match r with
      | .IA32_FEATURE_CONTROL => 0x5
      | .IA32_VMX_CTRL_CPU0 => 0xffffffff00000000
      | .IA32_VMX_CTRL_CPU1 => 0xffffffff00000000
      | .IA32_VMX_EPT_VPID => 0x100100000
      | .IA32_VMX_CR0_FIXED0 => 0xffffffff80000021
      | .IA32_VMX_CR0_FIXED1 => 0xffffffff
      | .IA32_VMX_CR4_FIXED0 => 0x2000
      | .IA32_VMX_CR4_FIXED1 => 0x3767ff
      | _ => 0 }

/-- The state `ept_vmx_state` booted with the command-line flag `vtlb`. -/
def vtlb_vmx_state : State := { ept_vmx_state with vtlb := true }

/-- The arguments of a construction at address `0x10000`. -/
def sample_args : Args := ⟨0x10000, 0x20000, 0x30000, 0x40000, 0x50000⟩

end Vmcs

/-! ## Facts about the machine model -/

theorem Mem.write_same (m : Mem) (a v : Nat) : m.write a v a = v := by
  simp [Mem.write]

theorem Mem.write_other (m : Mem) (a v x : Nat) (h : x ≠ a) : m.write a v x = m x := by
  simp [Mem.write, h]

theorem Mem.write_self (m : Mem) (a : Nat) : m.write a (m a) = m := by
  funext x
  by_cases h : x = a
  · subst h; simp [Mem.write]
  · simp [Mem.write, h]

/-! ## Facts about `Utcb` -/

namespace Utcb

theorem words_val : words = 507 := by decide

theorem mr_val (u i : Nat) : mr u i = u + 5 + i := by
  simp [mr, sizeof_Utcb_head, sizeof_mword, sizeof_Crd]

theorem boff_le (m : Mem) (u : Nat) : boff m u ≤ 255 := by
  unfold boff
  exact Nat.and_le_right

theorem toff_le (m : Mem) (u : Nat) : toff m u ≤ 127 := by
  unfold toff
  exact Nat.and_le_right

theorem msub_val (m : Mem) (u : Nat) :
    msub words (boff m u + toff m u) = 507 - (boff m u + toff m u) := by
  have hb := boff_le m u
  have ht := toff_le m u
  simp only [msub, words_val, MWORD]
  norm_num
  omega

theorem maxui_val (m : Mem) (u : Nat) : maxui m u = 507 - (boff m u + toff m u) := by
  simp [maxui, msub_val]

theorem ui_le_maxui (m : Mem) (u : Nat) : ui m u ≤ maxui m u := by
  unfold ui
  exact Nat.min_le_left _ _

theorem save_loop_succ (d t n : Nat) (m : Mem) :
    save_loop d t (n + 1) m
      = (save_loop d t n m).write (mr d n) (save_loop d t n m (mr t n)) := by
  simp [save_loop, List.range_succ, List.foldl_append]

theorem save_loop_outside (d t : Nat) (m : Mem) (x : Nat) :
    ∀ n, (∀ i, i < n → x ≠ mr d i) → save_loop d t n m x = m x := by
  intro n
  induction n with
  | zero => intro _; simp [save_loop]
  | succ n ih =>
    intro h
    rw [save_loop_succ, Mem.write_other _ _ _ _ (h n (Nat.lt_succ_self n))]
    exact ih (fun i hi => h i (Nat.lt_succ_of_lt hi))

theorem save_loop_self (d : Nat) (m : Mem) : ∀ n, save_loop d d n m = m := by
  intro n
  induction n with
  | zero => simp [save_loop]
  | succ n ih => rw [save_loop_succ, ih, Mem.write_self]

theorem save_loop_copied (d t : Nat) (m : Mem) :
    ∀ n, (∀ i j, i < n → j < n → mr t j ≠ mr d i) →
      ∀ i, i < n → save_loop d t n m (mr d i) = m (mr t i) := by
  intro n
  induction n with
  | zero => intro _ i hi; omega
  | succ n ih =>
    intro h i hi
    rw [save_loop_succ]
    by_cases hin : i = n
    · subst hin
      rw [Mem.write_same]
      exact save_loop_outside d t m _ i (fun j hj => h j i (by omega) (by omega))
    · have hlt : i < n := by omega
      rw [Mem.write_other _ _ _ _ (by rw [mr_val, mr_val]; omega)]
      exact ih (fun a b ha hb => h a b (by omega) (by omega)) i hlt

theorem page_aligned_val (u : Nat) : page_aligned u ↔ u % 512 = 0 := by
  simp [page_aligned, PAGE_WORDS, PAGE_SIZE, sizeof_mword]

theorem save_count_le_dst (m : Mem) (src dst : Nat) :
    min (maxui m dst) (ui m src) ≤ 507 - (boff m dst + toff m dst) := by
  rw [← maxui_val]
  exact Nat.min_le_left _ _

theorem save_count_le_src (m : Mem) (src dst : Nat) :
    min (maxui m dst) (ui m src) ≤ 507 - (boff m src + toff m src) := by
  rw [← maxui_val]
  exact Nat.le_trans (Nat.min_le_right _ _) (ui_le_maxui m src)

/-- What `save` leaves at each address when source and destination are two pages. -/
theorem save_apply (m : Mem) (src dst : Nat) (hs : page_aligned src) (hd : page_aligned dst)
    (hne : src ≠ dst) (x : Nat) :
    save m src dst x =
      if x = cur_frame m dst + 1 then items m (cur_frame m src)
      else if mr (cur_frame m dst) 0 ≤ x
          ∧ x < mr (cur_frame m dst) (min (maxui m dst) (ui m src)) then
        m (mr (cur_frame m src) (x - mr (cur_frame m dst) 0))
      else m x := by
  rw [page_aligned_val] at hs hd
  have hnd := save_count_le_dst m src dst
  have hns := save_count_le_src m src dst
  have hbd := boff_le m dst
  have hbs := boff_le m src
  unfold save
  generalize min (maxui m dst) (ui m src) = n at hnd hns ⊢
  simp only [cur_frame, mr_val] at *
  generalize boff m dst = bd at *
  generalize boff m src = bs at *
  generalize toff m dst = td at *
  generalize toff m src = ts at *
  by_cases h1 : x = dst + bd + 1
  · rw [if_pos h1, save_loop_outside _ _ _ _ n (by intro i _; rw [mr_val]; omega), h1,
      Mem.write_same]
  · rw [if_neg h1]
    by_cases h2 : dst + bd + 5 + 0 ≤ x ∧ x < dst + bd + 5 + n
    · rw [if_pos h2]
      obtain ⟨i, hi⟩ : ∃ i, x = dst + bd + 5 + i := ⟨x - (dst + bd + 5), by omega⟩
      have hin : i < n := by omega
      have hx : x = mr (dst + bd) i := by rw [mr_val]; exact hi
      rw [hx, save_loop_copied _ _ _ n (by intro a b _ _; rw [mr_val, mr_val]; omega) i hin,
        Mem.write_other _ _ _ _ (by rw [mr_val]; omega), mr_val, mr_val]
      congr 1
      omega
    · rw [if_neg h2, save_loop_outside _ _ _ _ n (by intro i _; rw [mr_val]; omega),
        Mem.write_other _ _ _ _ h1]

theorem save_word0_dst (m : Mem) (src dst : Nat) (hs : page_aligned src) (hd : page_aligned dst)
    (hne : src ≠ dst) : save m src dst dst = m dst := by
  rw [save_apply m src dst hs hd hne]
  simp only [cur_frame, mr_val]
  rw [if_neg (by omega), if_neg (by omega)]

theorem save_src_page (m : Mem) (src dst : Nat) (hs : page_aligned src) (hd : page_aligned dst)
    (hne : src ≠ dst) (x : Nat) (h1 : src ≤ x) (h2 : x < src + 512) :
    save m src dst x = m x := by
  rw [save_apply m src dst hs hd hne]
  rw [page_aligned_val] at hs hd
  have hnd := save_count_le_dst m src dst
  have hbd := boff_le m dst
  simp only [cur_frame, mr_val]
  rw [if_neg (by omega), if_neg (by omega)]

theorem boff_congr (m m1 : Mem) (u : Nat) (h : m1 u = m u) : boff m1 u = boff m u := by
  simp [boff, bottom, h]

theorem toff_congr (m m1 : Mem) (u : Nat) (h : m1 u = m u) : toff m1 u = toff m u := by
  simp [toff, top, h]

theorem cur_frame_congr (m m1 : Mem) (u : Nat) (h : m1 u = m u) :
    cur_frame m1 u = cur_frame m u := by
  simp [cur_frame, boff_congr m m1 u h]

theorem maxui_congr (m m1 : Mem) (u : Nat) (h : m1 u = m u) : maxui m1 u = maxui m u := by
  simp [maxui, boff_congr m m1 u h, toff_congr m m1 u h]

/-- A `save` from a buffer to itself writes back what it reads. -/
theorem save_alias (m : Mem) (u : Nat) : save m u u = m := by
  unfold save items
  simp only []
  rw [Mem.write_self, save_loop_self]

/-! ## The claims about `Utcb` and `Utcb_segment` -/

/-- C1: for two distinct buffers `src` and `dst` (pages), with
`n = min (dst.maxui (), src.ui ())` taken before the call, after `src.save (dst)` the current
frame of the destination holds in `mr[i]`, for every `i < n`, the value that `mr[i]` of the
current frame of the source had before the call, and its `items` word is the `items` word of
the source frame. -/
theorem save_copies_count (m : Mem) (src dst : Nat) (hs : page_aligned src)
    (hd : page_aligned dst) (hne : src ≠ dst) :
    (∀ i, i < min (maxui m dst) (ui m src) →
      save m src dst (mr (cur_frame (save m src dst) dst) i) = m (mr (cur_frame m src) i))
    ∧ items (save m src dst) (cur_frame (save m src dst) dst) = items m (cur_frame m src) := by
  have hcf := cur_frame_congr m _ dst (save_word0_dst m src dst hs hd hne)
  rw [hcf]
  constructor
  · intro i hi
    rw [save_apply m src dst hs hd hne]
    simp only [mr_val] at *
    rw [if_neg (by omega), if_pos (by omega)]
    congr 1
    omega
  · unfold items
    rw [save_apply m src dst hs hd hne, if_pos rfl]
    rfl

/-- Witness of C1 on `sample_mem`: the second of the three copied words. -/
theorem save_copies_count_witness :
    page_aligned 0 ∧ page_aligned 512 ∧ (0 : Nat) ≠ 512
    ∧ save sample_mem 0 512 (mr (cur_frame (save sample_mem 0 512) 512) 1)
        = sample_mem (mr (cur_frame sample_mem 0) 1) :=
  ⟨by decide, by decide, by decide,
    (save_copies_count sample_mem 0 512 (by decide) (by decide) (by decide)).1 1 (by decide)⟩

/-- C2: for two distinct buffers, `src.save (dst)` changes no word other than the `items` word
of the destination frame and the first `n = min (dst.maxui (), src.ui ())` words of its `mr`:
`mr[i]` for `i >= n`, the cursors `top` and `bottom` of the destination, `xlt`, `del` and `tls`
of its frame keep their values, and so does every word of the source page. -/
theorem save_writes_only_count (m : Mem) (src dst : Nat) (hs : page_aligned src)
    (hd : page_aligned dst) (hne : src ≠ dst) :
    (∀ x, x ≠ cur_frame m dst + 1 →
      (∀ i, i < min (maxui m dst) (ui m src) → x ≠ mr (cur_frame m dst) i) →
      save m src dst x = m x)
    ∧ (∀ i, min (maxui m dst) (ui m src) ≤ i →
      save m src dst (mr (cur_frame m dst) i) = m (mr (cur_frame m dst) i))
    ∧ top (save m src dst) dst = top m dst
    ∧ bottom (save m src dst) dst = bottom m dst
    ∧ xlt (save m src dst) (cur_frame m dst) = xlt m (cur_frame m dst)
    ∧ del (save m src dst) (cur_frame m dst) = del m (cur_frame m dst)
    ∧ tls (save m src dst) (cur_frame m dst) = tls m (cur_frame m dst)
    ∧ (∀ x, src ≤ x → x < src + PAGE_WORDS → save m src dst x = m x) := by
  have hout : ∀ x, x ≠ cur_frame m dst + 1 →
      (∀ i, i < min (maxui m dst) (ui m src) → x ≠ mr (cur_frame m dst) i) →
      save m src dst x = m x := by
    intro x h1 h2
    rw [save_apply m src dst hs hd hne, if_neg h1]
    by_cases h3 : mr (cur_frame m dst) 0 ≤ x
        ∧ x < mr (cur_frame m dst) (min (maxui m dst) (ui m src))
    · exfalso
      simp only [mr_val] at h2 h3
      exact h2 (x - (cur_frame m dst + 5)) (by omega) (by omega)
    · rw [if_neg h3]
  have hw0 := save_word0_dst m src dst hs hd hne
  refine ⟨hout, ?_, ?_, ?_, ?_, ?_, ?_, ?_⟩
  · intro i hi
    apply hout
    · rw [mr_val]; omega
    · intro j hj; rw [mr_val, mr_val]; omega
  · simp [top, hw0]
  · simp [bottom, hw0]
  · unfold xlt
    apply hout
    · omega
    · intro j _; rw [mr_val]; omega
  · unfold del
    apply hout
    · omega
    · intro j _; rw [mr_val]; omega
  · unfold tls
    apply hout
    · omega
    · intro j _; rw [mr_val]; omega
  · intro x h1 h2
    exact save_src_page m src dst hs hd hne x h1 h2

/-- Witness of C2 on `sample_mem`: the sentinel right behind the three copied words
survives. -/
theorem save_writes_only_count_witness :
    page_aligned 0 ∧ page_aligned 512 ∧ (0 : Nat) ≠ 512
    ∧ save sample_mem 0 512 (mr (cur_frame sample_mem 512) 3) = 0xA5A5 :=
  ⟨by decide, by decide, by decide,
    ((save_writes_only_count sample_mem 0 512 (by decide) (by decide) (by decide)).2.1 3
      (by decide)).trans (by decide)⟩

/-- C3: for every buffer (every `top`, `bottom` and `items` word of the current frame)
`ui () <= maxui () = words - (boff () + toff ())` and
`ti () <= (words - (boff () + toff ())) / 2`, whatever the raw counts `ucnt ()` and `tcnt ()`
are; and `ui () = ucnt ()`, `ti () = tcnt ()` whenever the raw counts are within those caps. -/
theorem capped_counts (m : Mem) (u : Nat) :
    ui m u ≤ maxui m u
    ∧ maxui m u = words - (boff m u + toff m u)
    ∧ ti m u ≤ (words - (boff m u + toff m u)) / 2
    ∧ (ucnt m u ≤ words - (boff m u + toff m u) → ui m u = ucnt m u)
    ∧ (tcnt m u ≤ (words - (boff m u + toff m u)) / 2 → ti m u = tcnt m u) := by
  have hm := maxui_val m u
  have hs := msub_val m u
  refine ⟨ui_le_maxui m u, ?_, ?_, ?_, ?_⟩
  · rw [hm, words_val]
  · unfold ti
    rw [hs, words_val]
    exact Nat.min_le_left _ _
  · intro h
    unfold ui
    rw [hm]
    rw [words_val] at h
    exact Nat.min_eq_right h
  · intro h
    unfold ti
    rw [hs]
    rw [words_val] at h
    exact Nat.min_eq_right h

/-- Witness of C3 on `sample_mem`: the source buffer's raw count 3 is within the cap and is
reported as it is, the destination's raw count `0xA5A5` is capped at 507. -/
theorem capped_counts_witness :
    ucnt sample_mem 0 ≤ words - (boff sample_mem 0 + toff sample_mem 0)
    ∧ ui sample_mem 0 = ucnt sample_mem 0
    ∧ ucnt sample_mem 0 = 3
    ∧ ucnt sample_mem 512 = 0xA5A5
    ∧ ui sample_mem 512 = 507 :=
  ⟨by decide, (capped_counts sample_mem 0).2.2.2.1 (by decide), by decide, by decide,
    by decide⟩

/-- C4: with `PAGE_SIZE = 4096` and 8-byte words, `words = (4096 - sizeof (Utcb_head)) / 8`;
for every `bottom` and `top`, `boff ()` is at most `4096 / 16 - 1 = 255`, `toff ()` at most
`4096 / 32 - 1 = 127` and `boff () + toff () <= words`, so the subtraction in `maxui ()` does
not wrap: `maxui () + (boff () + toff ()) = words`; both maxima are reached together (cursors
`0xffff`), and there at least the `sizeof (Utcb_head) / 8` words of a header remain. -/
theorem mask_headroom (m : Mem) (u : Nat) :
    words = (4096 - sizeof_Utcb_head) / 8
    ∧ boff m u ≤ 4096 / 16 - 1 ∧ 4096 / 16 - 1 = 255
    ∧ toff m u ≤ 4096 / 32 - 1 ∧ 4096 / 32 - 1 = 127
    ∧ boff m u + toff m u ≤ words
    ∧ maxui m u + (boff m u + toff m u) = words
    ∧ (top m u = 0xffff → bottom m u = 0xffff →
        boff m u = 255 ∧ toff m u = 127 ∧ sizeof_Utcb_head / 8 ≤ maxui m u)
    ∧ sizeof_Utcb_head / 8 ≤ words - (255 + 127) := by
  have hb := boff_le m u
  have ht := toff_le m u
  have hm := maxui_val m u
  refine ⟨by decide, hb, by decide, ht, by decide, ?_, ?_, ?_, by decide⟩
  · rw [words_val]; omega
  · rw [words_val]; omega
  · intro h1 h2
    have hb2 : boff m u = 255 := by unfold boff; rw [h2]; decide
    have ht2 : toff m u = 127 := by unfold toff; rw [h1]; decide
    refine ⟨hb2, ht2, ?_⟩
    rw [hm, hb2, ht2]
    decide

/-- Witness of C4 on `full_mem`: with both cursors `0xffff` the offsets are 255 and 127 and
`maxui ()` still covers a header. -/
theorem mask_headroom_witness :
    top full_mem 0 = 0xffff ∧ bottom full_mem 0 = 0xffff
    ∧ boff full_mem 0 = 255 ∧ toff full_mem 0 = 127
    ∧ sizeof_Utcb_head / 8 ≤ maxui full_mem 0 :=
  ⟨by decide, by decide, (mask_headroom full_mem 0).2.2.2.2.2.2.2.1 (by decide) (by decide)⟩

/-- C5: for every `(s, b, l, a)`, after `set_vmx (s, b, l, a)` the field `ar` is
`((a >> 4) & 0x1f00) | (a & 0xff)` computed on the whole of `a`, a value below `0x2000` that
the 16-bit store does not change, `sel` is `s mod 2^16`, `limit` is `l mod 2^32` and `base`
is `b`. -/
theorem set_vmx_repacks (this : Utcb_segment) (s b l a : Nat) :
    (this.set_vmx s b l a).ar = ((a >>> 4) &&& 0x1f00) ||| (a &&& 0xff)
    ∧ ((a >>> 4) &&& 0x1f00) ||| (a &&& 0xff) < 0x2000
    ∧ (this.set_vmx s b l a).sel = s % 2 ^ 16
    ∧ (this.set_vmx s b l a).limit = l % 2 ^ 32
    ∧ (this.set_vmx s b l a).base = b := by
  have h1 : (a >>> 4) &&& 0x1f00 < 2 ^ 13 :=
    Nat.lt_of_le_of_lt Nat.and_le_right (by decide)
  have h2 : a &&& 0xff < 2 ^ 13 := Nat.lt_of_le_of_lt Nat.and_le_right (by decide)
  have h3 : ((a >>> 4) &&& 0x1f00) ||| (a &&& 0xff) < 2 ^ 13 := Nat.or_lt_two_pow h1 h2
  refine ⟨?_, h3, rfl, rfl, rfl⟩
  show (((a >>> 4) &&& 0x1f00) ||| (a &&& 0xff)) % 2 ^ 16 = _
  exact Nat.mod_eq_of_lt (Nat.lt_trans h3 (by decide))

/-- C6: for every buffer `u`, whatever its cursors and contents, `u.save (&u)` leaves every
word of memory, and so every word of `u`, as it was. -/
theorem save_self_unchanged (m : Mem) (u : Nat) :
    save m u u = m ∧ ∀ x, save m u u x = m x := by
  have h := save_alias m u
  exact ⟨h, fun x => by rw [h]⟩

/-- C7: for every source and destination buffer (two pages, or one and the same), a second
`src.save (dst)` right after the first leaves the whole memory, hence the destination page
and the source, exactly as the first call left it. -/
theorem save_idempotent (m : Mem) (src dst : Nat) (hs : page_aligned src)
    (hd : page_aligned dst) : save (save m src dst) src dst = save m src dst := by
  by_cases hne : src = dst
  · subst hne
    rw [save_alias, save_alias]
  · have hwd := save_word0_dst m src dst hs hd hne
    have hws : save m src dst src = m src :=
      save_src_page m src dst hs hd hne src (Nat.le_refl _) (by omega)
    have hcd := cur_frame_congr m _ dst hwd
    have hcs := cur_frame_congr m _ src hws
    have hmd := maxui_congr m _ dst hwd
    have hms := maxui_congr m _ src hws
    have hbs := boff_le m src
    have hns := save_count_le_src m src dst
    have hit : items (save m src dst) (cur_frame m src) = items m (cur_frame m src) := by
      unfold items
      exact save_src_page m src dst hs hd hne _ (by unfold cur_frame; omega)
        (by unfold cur_frame; omega)
    have hui : ui (save m src dst) src = ui m src := by
      unfold ui ucnt
      rw [hms, hcs, hit]
    funext x
    have e1 := save_apply (save m src dst) src dst hs hd hne x
    have e2 := save_apply m src dst hs hd hne x
    rw [hcd, hcs, hmd, hui, hit] at e1
    rw [e1]
    by_cases h1 : x = cur_frame m dst + 1
    · rw [if_pos h1] at e2
      rw [if_pos h1, e2]
    · rw [if_neg h1] at e2
      rw [if_neg h1]
      by_cases h2 : mr (cur_frame m dst) 0 ≤ x
          ∧ x < mr (cur_frame m dst) (min (maxui m dst) (ui m src))
      · rw [if_pos h2] at e2
        rw [if_pos h2, e2]
        have hbd := boff_le m dst
        have hnd := save_count_le_dst m src dst
        simp only [mr_val, cur_frame] at h2 ⊢
        exact save_src_page m src dst hs hd hne _ (by omega) (by omega)
      · rw [if_neg h2]

/-- Witness of C7 on `sample_mem`. -/
theorem save_idempotent_witness :
    page_aligned 0 ∧ page_aligned 512
    ∧ save (save sample_mem 0 512) 0 512 = save sample_mem 0 512 :=
  ⟨by decide, by decide, save_idempotent sample_mem 0 512 (by decide) (by decide)⟩

/-- Outside the `items` word and the copied words of the destination frame `save` changes
nothing, wherever the two buffers lie. -/
theorem save_outside (m : Mem) (src dst x : Nat) (h1 : x ≠ cur_frame m dst + 1)
    (h2 : ∀ i, i < min (maxui m dst) (ui m src) → x ≠ mr (cur_frame m dst) i) :
    save m src dst x = m x := by
  unfold save
  rw [save_loop_outside _ _ _ _ _ h2, Mem.write_other _ _ _ _ h1]

/-- The capped count that the destination reports after a `save` between two pages. -/
theorem ui_after_save (m : Mem) (src dst : Nat) (hs : page_aligned src) (hd : page_aligned dst)
    (hne : src ≠ dst) : ui (save m src dst) dst = min (maxui m dst) (ucnt m src) := by
  have hw := save_word0_dst m src dst hs hd hne
  have hit : items (save m src dst) (cur_frame m dst) = items m (cur_frame m src) := by
    unfold items
    rw [save_apply m src dst hs hd hne, if_pos rfl]
    rfl
  unfold ui ucnt
  rw [maxui_congr m _ dst hw, cur_frame_congr m _ dst hw, hit]

theorem or_shiftLeft_16 (a t : Nat) (ha : a < 2 ^ 16) : a ||| (t <<< 16) = a + t * 65536 := by
  rw [Nat.shiftLeft_eq, Nat.or_comm, Nat.mul_comm, ← Nat.mul_add_lt_is_or ha]
  omega

/-! ## More claims about `Utcb` -/

/-- C15: for every untyped count `cu < 2^16` and typed count `ct < 2^16`, if the `items` word
of the current frame is `cu | (ct << 16)` then `ucnt () = cu` and `tcnt () = ct`; in general
`ucnt ()` is the low 16 bits of the `items` word and `tcnt ()` is the 16-bit field above them,
bits 16 to 31 of the word. -/
theorem item_count_packing (m : Mem) (u : Nat) :
    (∀ cu ct, cu < 2 ^ 16 → ct < 2 ^ 16 →
      items m (cur_frame m u) = cu ||| (ct <<< 16) → ucnt m u = cu ∧ tcnt m u = ct)
    ∧ ucnt m u = items m (cur_frame m u) % 2 ^ 16
    ∧ tcnt m u = items m (cur_frame m u) / 2 ^ 16 % 2 ^ 16 := by
  refine ⟨?_, rfl, ?_⟩
  · intro cu ct hcu hct h
    unfold ucnt tcnt
    rw [h, or_shiftLeft_16 cu ct hcu, Nat.shiftRight_eq_div_pow]
    constructor <;> omega
  · unfold tcnt
    rw [Nat.shiftRight_eq_div_pow]

/-- Witness of C15 on `packed_mem`: the `items` word `0x1000000020003` yields the counts 3
and 2, its bit 48 does not count. -/
theorem item_count_packing_witness :
    items packed_mem (cur_frame packed_mem 0) = 0x1000000020003
    ∧ ucnt packed_mem 0 = 3 ∧ tcnt packed_mem 0 = 2
    ∧ ucnt sample_mem 0 = 3 ∧ tcnt sample_mem 0 = 0 :=
  ⟨by decide, by decide, by decide,
    (item_count_packing sample_mem 0).1 3 0 (by decide) (by decide) (by decide)⟩

/-- C16: with `PAGE_SIZE = 4096` and 8-byte words, for every `src` and `dst` and
`n = min (dst.maxui (), src.ui ())`, `dst.boff () + sizeof (Utcb_head) / 8 + n <= 512` and
`src.boff () + sizeof (Utcb_head) / 8 + n <= 512`: every `mr` word that `save` writes lies in
the destination page and every `mr` word it reads lies in the source page, as do the two
`items` words; and `save` changes no word outside the destination page. -/
theorem save_inside_page (m : Mem) (src dst : Nat) :
    boff m dst + sizeof_Utcb_head / 8 + min (maxui m dst) (ui m src) ≤ PAGE_SIZE / 8
    ∧ boff m src + sizeof_Utcb_head / 8 + min (maxui m dst) (ui m src) ≤ PAGE_SIZE / 8
    ∧ PAGE_SIZE / 8 = 512
    ∧ (∀ i, i < min (maxui m dst) (ui m src) →
        dst ≤ mr (cur_frame m dst) i ∧ mr (cur_frame m dst) i < dst + 512)
    ∧ (∀ i, i < min (maxui m dst) (ui m src) →
        src ≤ mr (cur_frame m src) i ∧ mr (cur_frame m src) i < src + 512)
    ∧ cur_frame m dst + 1 < dst + 512
    ∧ cur_frame m src + 1 < src + 512
    ∧ (∀ x, x < dst ∨ dst + 512 ≤ x → save m src dst x = m x) := by
  have hnd := save_count_le_dst m src dst
  have hns := save_count_le_src m src dst
  have hbd := boff_le m dst
  have hbs := boff_le m src
  have hH : sizeof_Utcb_head / 8 = 5 := by decide
  have hP : PAGE_SIZE / 8 = 512 := by decide
  rw [hH, hP]
  refine ⟨by omega, by omega, rfl, ?_, ?_, ?_, ?_, ?_⟩
  · intro i hi; rw [mr_val]; unfold cur_frame; omega
  · intro i hi; rw [mr_val]; unfold cur_frame; omega
  · unfold cur_frame; omega
  · unfold cur_frame; omega
  · intro x hx
    apply save_outside
    · unfold cur_frame; omega
    · intro i hi; rw [mr_val]; unfold cur_frame; omega

/-- Witness of C16 on `crowded_mem`: the 125 words read from the source frame end at word 384
of its page. -/
theorem save_inside_page_witness :
    min (maxui crowded_mem 512) (ui crowded_mem 0) = 125
    ∧ mr (cur_frame crowded_mem 0) 124 = 384
    ∧ mr (cur_frame crowded_mem 0) 124 < 0 + 512 :=
  ⟨by decide, by decide, ((save_inside_page crowded_mem 0 512).2.2.2.2.1 124 (by decide)).2⟩

/-- C17 as it holds: for two distinct buffers, after `src.save (dst)` the capped count
`dst.ui ()` is `min (dst.maxui (), src.ucnt ())`; this is at least
`n = min (dst.maxui (), src.ui ())`, the number of words copied, and it is `n` whenever the raw
count of the source is within the capacity of the source frame (`src.ucnt () <= src.maxui ()`)
or the destination frame has no more room than the source frame. -/
theorem save_receiver_count (m : Mem) (src dst : Nat) (hs : page_aligned src)
    (hd : page_aligned dst) (hne : src ≠ dst) :
    ui (save m src dst) dst = min (maxui m dst) (ucnt m src)
    ∧ min (maxui m dst) (ui m src) ≤ ui (save m src dst) dst
    ∧ (ucnt m src ≤ maxui m src ∨ maxui m dst ≤ maxui m src →
        ui (save m src dst) dst = min (maxui m dst) (ui m src)) := by
  rw [ui_after_save m src dst hs hd hne]
  unfold ui
  refine ⟨rfl, ?_, ?_⟩
  · omega
  · intro h; omega

/-- Witness of the amended C17 on `sample_mem`: three words are copied and the destination
reports three. -/
theorem save_receiver_count_witness :
    page_aligned 0 ∧ page_aligned 512 ∧ (0 : Nat) ≠ 512
    ∧ ucnt sample_mem 0 ≤ maxui sample_mem 0
    ∧ min (maxui sample_mem 512) (ui sample_mem 0) = 3
    ∧ ui (save sample_mem 0 512) 512 = min (maxui sample_mem 512) (ui sample_mem 0) :=
  ⟨by decide, by decide, by decide, by decide, by decide,
    (save_receiver_count sample_mem 0 512 (by decide) (by decide) (by decide)).2.2
      (Or.inl (by decide))⟩

/-- C17 as stated fails on `crowded_mem`: the source frame has room for 125 words and claims
200, the destination has room for 507; `save` copies `n = 125` words and the `items` word, and
the destination then reports `ui () = 200`. -/
theorem save_receiver_count_exceeds :
    page_aligned 0 ∧ page_aligned 512 ∧ (0 : Nat) ≠ 512
    ∧ min (maxui crowded_mem 512) (ui crowded_mem 0) = 125
    ∧ ui (save crowded_mem 0 512) 512 = 200 :=
  ⟨by decide, by decide, by decide, by decide,
    (ui_after_save crowded_mem 0 512 (by decide) (by decide) (by decide)).trans (by decide)⟩

/-- C18: with `PAGE_SIZE = 4096` and a two-word `Xfer`, for every `top` and `bottom`, `xfer ()`
is the slot with index `PAGE_SIZE / sizeof (Xfer) - (1 + toff () / 2)` counted from the start
of the page; the index is at most `PAGE_SIZE / sizeof (Xfer) - 1`, so the two words of the slot
lie within the page, and they lie behind the header words
`[boff (), boff () + sizeof (Utcb_head) / 8)` of the current frame. -/
theorem xfer_slot_inside (m : Mem) (u : Nat) :
    xfer m u = u + 2 * (PAGE_SIZE / sizeof_Xfer - (1 + toff m u / 2))
    ∧ 1 + toff m u / 2 ≤ PAGE_SIZE / sizeof_Xfer
    ∧ PAGE_SIZE / sizeof_Xfer - (1 + toff m u / 2) ≤ PAGE_SIZE / sizeof_Xfer - 1
    ∧ u ≤ xfer m u
    ∧ xfer m u + sizeof_Xfer / sizeof_mword ≤ u + PAGE_WORDS
    ∧ cur_frame m u + sizeof_Utcb_head / sizeof_mword ≤ xfer m u := by
  have ht := toff_le m u
  have hb := boff_le m u
  have hX : sizeof_Xfer = 16 := by decide
  have hP : PAGE_SIZE = 4096 := by decide
  have hW : PAGE_WORDS = 512 := by decide
  have hH : sizeof_Utcb_head = 40 := by decide
  have hM : sizeof_mword = 8 := by decide
  unfold xfer cur_frame
  rw [hX, hP, hW, hH, hM]
  norm_num
  omega

/-- Witness of C18 on `full_mem`, both cursors at their largest offsets: the frame header
occupies words 255 to 259 and the slot words 384 and 385. -/
theorem xfer_slot_inside_witness :
    cur_frame full_mem 0 = 255 ∧ xfer full_mem 0 = 384
    ∧ cur_frame full_mem 0 + sizeof_Utcb_head / sizeof_mword ≤ xfer full_mem 0 :=
  ⟨by decide, by decide, (xfer_slot_inside full_mem 0).2.2.2.2.2⟩

end Utcb

/-! ## Facts about machine integers -/

theorem testBit_mnot (x i : Nat) :
    (mnot x).testBit i = (decide (i < 64) && !x.testBit i) := by
  have h : x % 2 ^ 64 < 2 ^ 64 := Nat.mod_lt _ (by decide)
  have e : mnot x = 2 ^ 64 - (x % 2 ^ 64 + 1) := by
    unfold mnot MWORD; omega
  rw [e, Nat.testBit_two_pow_sub_succ h, Nat.testBit_mod_two_pow]
  by_cases hi : i < 64 <;> simp [hi]

theorem testBit_not32 (x i : Nat) :
    (not32 x).testBit i = (decide (i < 32) && !x.testBit i) := by
  have h : x % 2 ^ 32 < 2 ^ 32 := Nat.mod_lt _ (by decide)
  have e : not32 x = 2 ^ 32 - (x % 2 ^ 32 + 1) := by
    unfold not32; omega
  rw [e, Nat.testBit_two_pow_sub_succ h, Nat.testBit_mod_two_pow]
  by_cases hi : i < 32 <;> simp [hi]

theorem testBit_u32 (x i : Nat) : (u32 x).testBit i = (decide (i < 32) && x.testBit i) := by
  unfold u32; rw [Nat.testBit_mod_two_pow]

theorem testBit_mw (x i : Nat) : (mw x).testBit i = (decide (i < 64) && x.testBit i) := by
  unfold mw MWORD; rw [Nat.testBit_mod_two_pow]

theorem testBit_of_lt_32 (x i : Nat) (h : x < 2 ^ 32) (hi : 32 ≤ i) :
    x.testBit i = false := by
  apply Nat.testBit_eq_false_of_lt
  exact Nat.lt_of_lt_of_le h (Nat.pow_le_pow_right (by decide) hi)

theorem u32_lt (x : Nat) : u32 x < 2 ^ 32 := Nat.mod_lt _ (by decide)

theorem mw_u32 (x : Nat) : mw (u32 x) = u32 x := by
  unfold mw MWORD
  exact Nat.mod_eq_of_lt (Nat.lt_trans (u32_lt x) (by decide))

theorem Ctrl.set_lt (c : Ctrl) : c.set < 2 ^ 32 := Nat.mod_lt _ (by decide)

theorem Ctrl.clr_lt (c : Ctrl) : c.clr < 2 ^ 32 := Nat.mod_lt _ (by decide)

/-- The three narrowing steps of a control word lose nothing: the clear mask is 32 bits
wide. -/
theorem ctrl_word (c set clr : Nat) (h : clr < 2 ^ 32) :
    mw (u32 (u32 (u32 c ||| set) &&& clr)) = (c ||| set) &&& clr := by
  apply Nat.eq_of_testBit_eq
  intro i
  simp only [testBit_mw, testBit_u32, Nat.testBit_and, Nat.testBit_or]
  by_cases hi : i < 32
  · have : i < 64 := by omega
    simp [hi, this]
  · rw [testBit_of_lt_32 clr i h (by omega)]
    simp

/-! ## Facts about `Vmcs` -/

namespace Vmcs

theorem written_append (enc : Encoding) (a b : List Op) :
    written enc (a ++ b) = written enc a ++ written enc b := by
  simp [written, List.filterMap_append]

/-- The requests of one construction, in program order. -/
theorem Vmcs_ops (K : Consts) (s : State) (this esp bmp cr3 eptp : Nat) :
    (Vmcs K s this esp bmp cr3 eptp).ops = s.ops ++
      [ .vmclear this, .vmptrld this,
        .vmwrite .PIN_EXEC_CTRL
          (((K.PIN_EXTINT ||| K.PIN_NMI ||| K.PIN_VIRT_NMI) ||| s.ctrl_pin.set)
            &&& s.ctrl_pin.clr),
        .vmwrite .EXI_CONTROLS ((K.EXI_INTA ||| s.ctrl_exi.set) &&& s.ctrl_exi.clr),
        .vmwrite .ENT_CONTROLS ((0 ||| s.ctrl_ent.set) &&& s.ctrl_ent.clr),
        .vmwrite .PF_ERROR_MASK 0,
        .vmwrite .PF_ERROR_MATCH 0,
        .vmwrite .CR3_TARGET_COUNT 0,
        .vmwrite .VMCS_LINK_PTR (2 ^ 64 - 1),
        .vmwrite .VMCS_LINK_PTR_HI (2 ^ 64 - 1),
        .vmwrite .VPID (u32 (s.vpid_ctr + 1)),
        .vmwrite .EPTP (mw (mw eptp ||| mw (msub K.Ept_max 1 <<< 3) ||| 6)),
        .vmwrite .EPTP_HI (mw (mw ((eptp % 2 ^ 64) >>> 32))),
        .vmwrite .IO_BITMAP_A (mw bmp),
        .vmwrite .IO_BITMAP_B (mw (mw (bmp + PAGE_SIZE))),
        .vmwrite .HOST_SEL_CS (mw K.SEL_KERN_CODE),
        .vmwrite .HOST_SEL_SS (mw K.SEL_KERN_DATA),
        .vmwrite .HOST_SEL_DS (mw K.SEL_KERN_DATA),
        .vmwrite .HOST_SEL_ES (mw K.SEL_KERN_DATA),
        .vmwrite .HOST_SEL_TR (mw K.SEL_TSS_RUN),
        .vmwrite .HOST_CR3 (mw cr3),
        .vmwrite .HOST_CR0 (mw (s.cr0 ||| K.CR0_TS)),
        .vmwrite .HOST_CR4 (mw s.cr4),
        .vmwrite .HOST_BASE_TR (mw K.tss_run),
        .vmwrite .HOST_BASE_GDTR (mw K.gdt),
        .vmwrite .HOST_BASE_IDTR (mw K.idt),
        .vmwrite .HOST_SYSENTER_CS (mw K.SEL_KERN_CODE),
        .vmwrite .HOST_SYSENTER_ESP (mw K.tss_run_sp0),
        .vmwrite .HOST_SYSENTER_EIP (mw K.entry_sysenter),
        .vmwrite .HOST_RSP (mw esp),
        .vmwrite .HOST_RIP (mw K.entry_vmx) ] := by
  have hpin := ctrl_word (K.PIN_EXTINT ||| K.PIN_NMI ||| K.PIN_VIRT_NMI) s.ctrl_pin.set
    s.ctrl_pin.clr s.ctrl_pin.clr_lt
  have hexi := ctrl_word K.EXI_INTA s.ctrl_exi.set s.ctrl_exi.clr s.ctrl_exi.clr_lt
  have hent := ctrl_word 0 s.ctrl_ent.set s.ctrl_ent.clr s.ctrl_ent.clr_lt
  have h0 : mw 0 = 0 := by decide
  have h1 : mw (mnot 0) = 2 ^ 64 - 1 := by decide
  have h2 : u32 0 = 0 := by decide
  simp only [Vmcs, write, clear, make_current, init_rev, List.append_assoc,
    List.singleton_append, List.cons_append, List.nil_append]
  rw [h2] at hent
  rw [hpin, hexi, hent, h0, h1, mw_u32]

theorem Vmcs_vpid_ctr (K : Consts) (s : State) (this esp bmp cr3 eptp : Nat) :
    (Vmcs K s this esp bmp cr3 eptp).vpid_ctr = u32 (s.vpid_ctr + 1) := rfl

theorem Vmcs_written_vpid (K : Consts) (s : State) (this esp bmp cr3 eptp : Nat) :
    written .VPID (Vmcs K s this esp bmp cr3 eptp).ops
      = written .VPID s.ops ++ [u32 (s.vpid_ctr + 1)] := by
  rw [Vmcs_ops, written_append]
  rfl

theorem constructions_cons (K : Consts) (s : State) (a : Args) (l : List Args) :
    constructions K s (a :: l)
      = constructions K (Vmcs K s a.this a.esp a.bmp a.cr3 a.eptp) l := rfl

/-- The identifiers that a run of constructions writes: the counter is incremented modulo
`2^32` before each write. -/
theorem constructions_written_vpid (K : Consts) :
    ∀ (l : List Args) (s : State),
      written .VPID (constructions K s l).ops
        = written .VPID s.ops ++ (List.range l.length).map (fun k => u32 (s.vpid_ctr + k + 1)) := by
  intro l
  induction l with
  | nil => intro s; simp [constructions]
  | cons a l ih =>
    intro s
    rw [constructions_cons, ih, Vmcs_written_vpid, Vmcs_vpid_ctr, List.length_cons,
      List.range_succ_eq_map, List.map_cons, List.map_map, List.append_assoc]
    congr 1
    simp only [List.singleton_append, Nat.add_zero]
    congr 1
    apply List.map_congr_left
    intro k _
    simp only [Function.comp, u32]
    norm_num
    omega

/-- The function `init` is its early return or else the composition of its steps. -/
theorem init_steps (K : Consts) (s : State) (root : Nat) :
    init K s root =
      if !s.cpu_feat_vmx || (Msr.read32 s .IA32_FEATURE_CONTROL &&& 0x5) != 0x5 then
        Hip.remove s K.FEAT_VMX
      else
        Vmcs_root K (init_cr (init_novpid K (init_vtlb K (init_set K (init_urg K
          (init_ept_ord K (init_ept_vpid K (init_secondary K (init_basic K
            (init_fixed s)))))))))) root := rfl

theorem init_fixed_hip (s : State) : (init_fixed s).hip = s.hip := rfl

theorem init_basic_hip (K : Consts) (s : State) : (init_basic K s).hip = s.hip := rfl

theorem init_secondary_hip (K : Consts) (s : State) : (init_secondary K s).hip = s.hip := by
  unfold init_secondary; split <;> rfl

theorem init_ept_vpid_hip (K : Consts) (s : State) : (init_ept_vpid K s).hip = s.hip := by
  unfold init_ept_vpid; split <;> rfl

theorem init_ept_ord_hip (K : Consts) (s : State) : (init_ept_ord K s).hip = s.hip := by
  unfold init_ept_ord; split <;> rfl

theorem init_urg_hip (K : Consts) (s : State) : (init_urg K s).hip = s.hip := by
  unfold init_urg; split <;> rfl

theorem init_set_hip (K : Consts) (s : State) : (init_set K s).hip = s.hip := rfl

theorem init_vtlb_hip (K : Consts) (s : State) : (init_vtlb K s).hip = s.hip := by
  unfold init_vtlb; simp only []; split <;> rfl

theorem init_novpid_hip (K : Consts) (s : State) : (init_novpid K s).hip = s.hip := by
  unfold init_novpid; split <;> rfl

theorem init_cr_hip (s : State) : (init_cr s).hip = s.hip := rfl

theorem Vmcs_root_hip (K : Consts) (s : State) (root : Nat) :
    (Vmcs_root K s root).hip = s.hip := rfl

/-! ## Facts about the steps of `init` -/

theorem Ctrl.with_set_set (c : Ctrl) (x : Nat) : (c.with_set x).set = u32 x := by
  have h := u32_lt x
  unfold Ctrl.with_set Ctrl.set
  simp only []
  norm_num at h ⊢
  omega

theorem Ctrl.with_set_clr (c : Ctrl) (x : Nat) : (c.with_set x).clr = c.clr := by
  have h := u32_lt x
  have h2 := c.clr_lt
  unfold Ctrl.with_set
  generalize c.clr = b at h2 ⊢
  unfold Ctrl.clr
  simp only []
  norm_num at h h2 ⊢
  omega

theorem Ctrl.with_clr_clr (c : Ctrl) (x : Nat) : (c.with_clr x).clr = u32 x := by
  have h := u32_lt x
  have h2 := c.set_lt
  unfold Ctrl.with_clr
  generalize c.set = b at h2 ⊢
  unfold Ctrl.clr
  simp only []
  norm_num at h h2 ⊢
  omega

theorem Ctrl.with_clr_set (c : Ctrl) (x : Nat) : (c.with_clr x).set = c.set := by
  have h := u32_lt x
  have h2 := c.set_lt
  unfold Ctrl.with_clr
  generalize c.set = b at h2 ⊢
  unfold Ctrl.set
  simp only []
  norm_num at h h2 ⊢
  omega

/-- With VMX present and enabled `init` runs all its steps. -/
theorem init_pass (K : Consts) (s : State) (root : Nat) (h1 : s.cpu_feat_vmx = true)
    (h2 : Msr.read32 s .IA32_FEATURE_CONTROL &&& 0x5 = 0x5) :
    init K s root = Vmcs_root K (init_cr (init_policy K s)) root := by
  have hc : ¬ (!s.cpu_feat_vmx || (Msr.read32 s .IA32_FEATURE_CONTROL &&& 0x5) != 0x5) = true := by
    simp [h1, h2]
  rw [init_steps, if_neg hc]
  rfl

/-- What the steps up to line 123 leave in the fields that the later steps read. -/
theorem init_probed_fields (K : Consts) (s : State) :
    (init_probed K s).vtlb = s.vtlb
    ∧ (init_probed K s).novpid = s.novpid
    ∧ (init_probed K s).cr0 = s.cr0
    ∧ (init_probed K s).cr4 = s.cr4
    ∧ (init_probed K s).fix_cr0_set = Msr.readm s .IA32_VMX_CR0_FIXED0
    ∧ (init_probed K s).fix_cr0_clr = mnot (Msr.readm s .IA32_VMX_CR0_FIXED1)
    ∧ (init_probed K s).fix_cr4_set = Msr.readm s .IA32_VMX_CR4_FIXED0
    ∧ (init_probed K s).fix_cr4_clr = mnot (Msr.readm s .IA32_VMX_CR4_FIXED1) := by
  simp only [init_probed, init_ept_ord, init_ept_vpid, init_secondary]
  split_ifs <;> exact ⟨rfl, rfl, rfl, rfl, rfl, rfl, rfl, rfl⟩

/-- The capability word `ept_vpid` is read when the secondary policy, as read, allows EPT or
VPID, and is left alone otherwise. -/
theorem init_probed_ept_vpid (K : Consts) (s : State) :
    (init_probed K s).ept_vpid =
      if has_ept K (init_secondary K (init_basic K (init_fixed s)))
          || has_vpid K (init_secondary K (init_basic K (init_fixed s))) then
        Msr.read64 s .IA32_VMX_EPT_VPID
      else s.ept_vpid := by
  simp only [init_probed, init_ept_ord, init_ept_vpid, init_secondary]
  split_ifs <;> rfl

/-- What the steps of lines 124 to 133 leave in the fields other than `ctrl_cpu`. -/
theorem init_policy_fields (K : Consts) (s : State) :
    (init_policy K s).cr0 = s.cr0
    ∧ (init_policy K s).cr4 = s.cr4
    ∧ (init_policy K s).fix_cr0_set =
        (if has_urg K (init_probed K s) then
          Msr.readm s .IA32_VMX_CR0_FIXED0 &&& not32 (K.CR0_PG ||| K.CR0_PE)
        else Msr.readm s .IA32_VMX_CR0_FIXED0)
    ∧ (init_policy K s).fix_cr0_clr = mnot (Msr.readm s .IA32_VMX_CR0_FIXED1)
    ∧ (init_policy K s).fix_cr4_set = Msr.readm s .IA32_VMX_CR4_FIXED0
    ∧ (init_policy K s).fix_cr4_clr = mnot (Msr.readm s .IA32_VMX_CR4_FIXED1)
    ∧ (init_policy K s).ept_vpid = (init_probed K s).ept_vpid := by
  obtain ⟨_, _, h3, h4, h5, h6, h7, h8⟩ := init_probed_fields K s
  rw [← h3, ← h4, ← h5, ← h6, ← h7, ← h8]
  unfold init_policy
  generalize init_probed K s = P
  simp only [init_novpid, init_vtlb, init_set, init_urg]
  split_ifs <;> exact ⟨rfl, rfl, rfl, rfl, rfl, rfl, rfl⟩

/-- The secondary policy behind line 133: `CPU_VPID | CPU_URG` is set, and the two overrides
clear `CPU_EPT | CPU_URG` and `CPU_VPID`. -/
theorem init_policy_ctrl_cpu1 (K : Consts) (s : State) :
    (init_policy K s).ctrl_cpu1.set
        = u32 ((init_probed K s).ctrl_cpu1.set ||| (K.CPU_VPID ||| K.CPU_URG))
    ∧ (init_policy K s).ctrl_cpu1.clr =
        (if s.novpid || !K.ept_vpid_invvpid (init_probed K s).ept_vpid then
          u32 ((if s.vtlb || !K.ept_vpid_invept (init_probed K s).ept_vpid then
              u32 ((init_probed K s).ctrl_cpu1.clr &&& mnot (K.CPU_EPT ||| K.CPU_URG))
            else (init_probed K s).ctrl_cpu1.clr) &&& mnot K.CPU_VPID)
        else if s.vtlb || !K.ept_vpid_invept (init_probed K s).ept_vpid then
          u32 ((init_probed K s).ctrl_cpu1.clr &&& mnot (K.CPU_EPT ||| K.CPU_URG))
        else (init_probed K s).ctrl_cpu1.clr) := by
  obtain ⟨h1, h2, _⟩ := init_probed_fields K s
  rw [← h1, ← h2]
  unfold init_policy
  generalize init_probed K s = P
  simp only [init_novpid, init_vtlb, init_set, init_urg]
  split_ifs <;>
    simp only [Ctrl.with_clr_clr, Ctrl.with_clr_set, Ctrl.with_set_set, Ctrl.with_set_clr,
      and_self]

theorem land_eq_zero_of_bits (x y : Nat)
    (h : ∀ i, x.testBit i = true → y.testBit i = false) : x &&& y = 0 := by
  apply Nat.eq_of_testBit_eq
  intro i
  rw [Nat.testBit_and, Nat.zero_testBit]
  cases hx : x.testBit i
  · simp
  · simp [h i hx]

theorem bits_of_land_eq_zero (x y : Nat) (h : x &&& y = 0) (i : Nat)
    (hx : x.testBit i = true) : y.testBit i = false := by
  have e := congrArg (fun n => Nat.testBit n i) h
  simp only [Nat.testBit_and, Nat.zero_testBit, hx, Bool.true_and] at e
  exact e

/-- The bits of a clear mask behind the two overrides of `init`. -/
theorem clr_overrides_bit (p e u v : Nat) (c1 c2 : Bool) (hp : p < 2 ^ 32) (i : Nat) :
    (if c2 = true then
        u32 ((if c1 = true then u32 (p &&& mnot (e ||| u)) else p) &&& mnot v)
      else if c1 = true then u32 (p &&& mnot (e ||| u)) else p).testBit i
      = (p.testBit i && (!c1 || !(e.testBit i || u.testBit i)) && (!c2 || !v.testBit i)) := by
  by_cases hi : i < 32
  · have h64 : i < 64 := by omega
    cases c1 <;> cases c2 <;>
      simp [testBit_u32, testBit_mnot, Nat.testBit_and, Nat.testBit_or, hi, h64]
  · have hpi := testBit_of_lt_32 p i hp (by omega)
    cases c1 <;> cases c2 <;>
      simp [testBit_u32, testBit_mnot, Nat.testBit_and, Nat.testBit_or, hi, hpi]

/-- The fields of the state that `init` leaves with VMX present and enabled. -/
theorem init_final_fields (K : Consts) (s : State) (root : Nat) (h1 : s.cpu_feat_vmx = true)
    (h2 : Msr.read32 s .IA32_FEATURE_CONTROL &&& 0x5 = 0x5) :
    (init K s root).ctrl_cpu1 = (init_policy K s).ctrl_cpu1
    ∧ (init K s root).ept_vpid = (init_probed K s).ept_vpid
    ∧ (init K s root).fix_cr0_set =
        (if has_urg K (init_probed K s) then
          Msr.readm s .IA32_VMX_CR0_FIXED0 &&& not32 (K.CR0_PG ||| K.CR0_PE)
        else Msr.readm s .IA32_VMX_CR0_FIXED0)
    ∧ (init K s root).fix_cr0_clr = mnot (Msr.readm s .IA32_VMX_CR0_FIXED1)
    ∧ (init K s root).fix_cr4_set = Msr.readm s .IA32_VMX_CR4_FIXED0
    ∧ (init K s root).fix_cr4_clr = mnot (Msr.readm s .IA32_VMX_CR4_FIXED1)
    ∧ (init K s root).cr0
        = mw ((s.cr0 &&& mnot (init K s root).fix_cr0_clr) ||| (init K s root).fix_cr0_set)
    ∧ (init K s root).cr4
        = mw ((s.cr4 &&& mnot (init K s root).fix_cr4_clr) ||| (init K s root).fix_cr4_set) := by
  obtain ⟨e1, e2, e3, e4, e5, e6, e7⟩ := init_policy_fields K s
  rw [init_pass K s root h1 h2]
  refine ⟨rfl, e7, e3, e4, e5, e6, ?_, ?_⟩
  · show mw (((init_policy K s).cr0 &&& mnot (init_policy K s).fix_cr0_clr)
      ||| (init_policy K s).fix_cr0_set) = mw ((s.cr0 &&& mnot (init_policy K s).fix_cr0_clr)
      ||| (init_policy K s).fix_cr0_set)
    rw [e1]
  · show mw (((init_policy K s).cr4 &&& mnot (init_policy K s).fix_cr4_clr)
      ||| (init_policy K s).fix_cr4_set) = mw ((s.cr4 &&& mnot (init_policy K s).fix_cr4_clr)
      ||| (init_policy K s).fix_cr4_set)
    rw [e2]

/-- The bits of the clear mask of `ctrl_cpu[1]` that `init` leaves: those read, less
`CPU_EPT | CPU_URG` under the first override and less `CPU_VPID` under the second. -/
theorem init_clr_bit (K : Consts) (s : State) (root : Nat) (h1 : s.cpu_feat_vmx = true)
    (h2 : Msr.read32 s .IA32_FEATURE_CONTROL &&& 0x5 = 0x5) (i : Nat) :
    (init K s root).ctrl_cpu1.clr.testBit i
      = ((init_probed K s).ctrl_cpu1.clr.testBit i
        && (!(s.vtlb || !K.ept_vpid_invept (init K s root).ept_vpid)
            || !(K.CPU_EPT.testBit i || K.CPU_URG.testBit i))
        && (!(s.novpid || !K.ept_vpid_invvpid (init K s root).ept_vpid)
            || !K.CPU_VPID.testBit i)) := by
  obtain ⟨e1, e2, _⟩ := init_final_fields K s root h1 h2
  rw [e1, e2, (init_policy_ctrl_cpu1 K s).2]
  exact clr_overrides_bit _ _ _ _ _ _ (Ctrl.clr_lt _) i

theorem mw_lt (x : Nat) : mw x < 2 ^ 64 := Nat.mod_lt _ (by decide)

theorem mw_of_lt (x : Nat) (h : x < 2 ^ 64) : mw x = x := Nat.mod_eq_of_lt h

theorem testBit_of_lt_64 (x i : Nat) (h : x < 2 ^ 64) (hi : 64 ≤ i) : x.testBit i = false := by
  apply Nat.testBit_eq_false_of_lt
  exact Nat.lt_of_lt_of_le h (Nat.pow_le_pow_right (by decide) hi)

/-- A register forced into a pair of fixed masks: the store loses nothing, set bits are 1,
cleared bits that are not set are 0, the other bits are kept. -/
theorem forced_bits (old set clr : Nat) (hs : set < 2 ^ 64) :
    mw ((old &&& mnot clr) ||| set) = (old &&& mnot clr) ||| set
    ∧ ∀ i, i < 64 →
      (set.testBit i = true → ((old &&& mnot clr) ||| set).testBit i = true)
      ∧ (clr.testBit i = true → set.testBit i = false →
          ((old &&& mnot clr) ||| set).testBit i = false)
      ∧ (set.testBit i = false → clr.testBit i = false →
          ((old &&& mnot clr) ||| set).testBit i = old.testBit i) := by
  constructor
  · apply Nat.eq_of_testBit_eq
    intro i
    simp only [testBit_mw, Nat.testBit_or, Nat.testBit_and, testBit_mnot]
    by_cases hi : i < 64
    · simp [hi]
    · simp [hi, testBit_of_lt_64 set i hs (by omega)]
  · intro i hi
    simp only [Nat.testBit_or, Nat.testBit_and, testBit_mnot, hi, decide_True, Bool.true_and]
    refine ⟨?_, ?_, ?_⟩
    · intro h; simp [h]
    · intro h1 h2; simp [h1, h2]
    · intro h1 h2; simp [h1, h2]

theorem init_fix_cr0_set_lt (K : Consts) (s : State) :
    (if has_urg K (init_probed K s) then
        Msr.readm s .IA32_VMX_CR0_FIXED0 &&& not32 (K.CR0_PG ||| K.CR0_PE)
      else Msr.readm s .IA32_VMX_CR0_FIXED0) < 2 ^ 64 := by
  have h := mw_lt (s.msr .IA32_VMX_CR0_FIXED0)
  split
  · exact Nat.lt_of_le_of_lt Nat.and_le_left h
  · exact h

/-- The secondary policy is read when `ctrl_cpu[0]`, as read, allows secondary controls, and
is left alone otherwise. -/
theorem init_probed_ctrl_cpu1 (K : Consts) (s : State) :
    (init_probed K s).ctrl_cpu1 =
      if has_secondary K (init_basic K (init_fixed s)) then
        ⟨Msr.read64 s .IA32_VMX_CTRL_CPU1⟩
      else s.ctrl_cpu1 := by
  simp only [init_probed, init_ept_ord, init_ept_vpid, init_secondary]
  split_ifs <;> rfl

theorem msub_one (n : Nat) (h1 : 1 ≤ n) (h8 : n ≤ 8) : msub n 1 = n - 1 := by
  unfold msub MWORD
  norm_num
  omega

/-- The pointer written to `EPTP` for a walk length between 1 and 8 and an aligned root, as
a sum. -/
theorem eptp_word (eptp n : Nat) (h1 : 1 ≤ n) (h8 : n ≤ 8) (ha : eptp % 4096 = 0) :
    eptp ||| ((n - 1) <<< 3) ||| 6 = eptp + (n - 1) * 8 + 6 := by
  have e1 : ((n - 1) <<< 3) ||| 6 = (n - 1) * 8 + 6 := by
    rw [Nat.shiftLeft_eq, Nat.mul_comm]
    exact (Nat.mul_add_lt_is_or (by decide : 6 < 2 ^ 3) (n - 1)).symm
  have e2 : eptp = 2 ^ 12 * (eptp / 4096) := by omega
  rw [Nat.or_assoc, e1, e2, ← Nat.mul_add_lt_is_or (by omega : (n - 1) * 8 + 6 < 2 ^ 12)]
  omega

theorem land_ne_zero_of_bit (x y i : Nat) (hx : x.testBit i = true) (hy : y.testBit i = true) :
    x &&& y ≠ 0 := by
  intro h
  have := bits_of_land_eq_zero x y h i hx
  rw [hy] at this
  exact Bool.noConfusion this

theorem has_urg_false_iff (K : Consts) (s : State) :
    has_urg K s = false ↔ s.ctrl_cpu1.clr &&& K.CPU_URG = 0 := by
  simp [has_urg]

/-! ## The claims about `Vmcs` -/

/-- C8: for every policy in `ctrl_pin`, `ctrl_exi` and `ctrl_ent` the constructor writes
`((PIN_EXTINT | PIN_NMI | PIN_VIRT_NMI) | ctrl_pin.set) & ctrl_pin.clr` to `PIN_EXEC_CTRL`,
`(EXI_INTA | ctrl_exi.set) & ctrl_exi.clr` to `EXI_CONTROLS` and
`(0 | ctrl_ent.set) & ctrl_ent.clr` to `ENT_CONTROLS`, each of them once; and clear wins: a
bit that is 0 in `clr` is 0 in the written word, whatever `set` and the minimum are. -/
theorem ctor_control_words (K : Consts) (s : State) (this esp bmp cr3 eptp : Nat) :
    written .PIN_EXEC_CTRL (Vmcs K s this esp bmp cr3 eptp).ops
        = written .PIN_EXEC_CTRL s.ops
          ++ [((K.PIN_EXTINT ||| K.PIN_NMI ||| K.PIN_VIRT_NMI) ||| s.ctrl_pin.set)
                &&& s.ctrl_pin.clr]
    ∧ written .EXI_CONTROLS (Vmcs K s this esp bmp cr3 eptp).ops
        = written .EXI_CONTROLS s.ops ++ [(K.EXI_INTA ||| s.ctrl_exi.set) &&& s.ctrl_exi.clr]
    ∧ written .ENT_CONTROLS (Vmcs K s this esp bmp cr3 eptp).ops
        = written .ENT_CONTROLS s.ops ++ [(0 ||| s.ctrl_ent.set) &&& s.ctrl_ent.clr]
    ∧ (∀ i, s.ctrl_pin.clr.testBit i = false →
        (((K.PIN_EXTINT ||| K.PIN_NMI ||| K.PIN_VIRT_NMI) ||| s.ctrl_pin.set)
          &&& s.ctrl_pin.clr).testBit i = false)
    ∧ (∀ i, s.ctrl_exi.clr.testBit i = false →
        ((K.EXI_INTA ||| s.ctrl_exi.set) &&& s.ctrl_exi.clr).testBit i = false)
    ∧ (∀ i, s.ctrl_ent.clr.testBit i = false →
        ((0 ||| s.ctrl_ent.set) &&& s.ctrl_ent.clr).testBit i = false) := by
  refine ⟨?_, ?_, ?_, ?_, ?_, ?_⟩
  · rw [Vmcs_ops, written_append]; rfl
  · rw [Vmcs_ops, written_append]; rfl
  · rw [Vmcs_ops, written_append]; rfl
  · intro i h; rw [Nat.testBit_and, h, Bool.and_false]
  · intro i h; rw [Nat.testBit_and, h, Bool.and_false]
  · intro i h; rw [Nat.testBit_and, h, Bool.and_false]

/-- Witness of C8 on `vmx_state`, where `set = 0xff` and `clr = 0x0f` conflict: the word
written to `PIN_EXEC_CTRL` is `0x0f`. -/
theorem ctor_control_words_witness :
    vmx_state.ctrl_pin.set = 0xff ∧ vmx_state.ctrl_pin.clr = 0x0f
    ∧ written .PIN_EXEC_CTRL (Vmcs sample_consts vmx_state 0x10000 0 0 0 0).ops = [0x0f] :=
  ⟨by decide, by decide, (ctor_control_words sample_consts vmx_state 0x10000 0 0 0 0).1⟩

/-- C9 as it holds: for every `N < 2^32`, after `N` constructions executed one after another
from `vpid_ctr = 0`, the values written to `VPID` by these constructions are `1, 2, ..., N` in
this order: they are `N` values, pairwise distinct and all non-zero. -/
theorem vpid_unique_below_wrap (K : Consts) (s : State) (l : List Args)
    (h0 : s.vpid_ctr = 0) (hN : l.length < 2 ^ 32) :
    written .VPID (constructions K s l).ops = written .VPID s.ops ++ List.range' 1 l.length
    ∧ (List.range' 1 l.length).length = l.length
    ∧ (List.range' 1 l.length).Nodup
    ∧ (∀ v, v ∈ List.range' 1 l.length → v ≠ 0) := by
  refine ⟨?_, List.length_range' _ _ _, List.nodup_range' _ _, ?_⟩
  · rw [constructions_written_vpid, h0, List.range'_eq_map_range]
    congr 1
    apply List.map_congr_left
    intro k hk
    have hk2 := List.mem_range.mp hk
    simp only [u32]
    rw [Nat.mod_eq_of_lt (by omega)]
    omega
  · intro v hv
    have := (List.mem_range'_1.mp hv).1
    omega

/-- Witness of the amended C9: three constructions from the state at boot write 1, 2, 3. -/
theorem vpid_unique_below_wrap_witness :
    boot_state.vpid_ctr = 0
    ∧ [sample_args, sample_args, sample_args].length < 2 ^ 32
    ∧ written .VPID
        (constructions sample_consts boot_state [sample_args, sample_args, sample_args]).ops
      = [1, 2, 3] :=
  ⟨rfl, by decide,
    (vpid_unique_below_wrap sample_consts boot_state [sample_args, sample_args, sample_args]
      rfl (by decide)).1⟩

/-- C9 as stated fails at `N = 2^32`: from the state at boot (`vpid_ctr = 0`, nothing written
yet) `2^32` constructions write the value 0 to `VPID`, since the `unsigned` counter wraps. -/
theorem vpid_wraps_to_zero :
    boot_state.vpid_ctr = 0 ∧ boot_state.ops = []
    ∧ (List.replicate (2 ^ 32) sample_args).length = 2 ^ 32
    ∧ 0 ∈ written .VPID
        (constructions sample_consts boot_state (List.replicate (2 ^ 32) sample_args)).ops := by
  refine ⟨rfl, rfl, List.length_replicate _ _, ?_⟩
  rw [constructions_written_vpid, List.length_replicate]
  apply List.mem_append_right
  apply List.mem_map.mpr
  refine ⟨2 ^ 32 - 1, List.mem_range.mpr (by norm_num), ?_⟩
  show u32 (0 + (2 ^ 32 - 1) + 1) = 0
  unfold u32
  norm_num

/-- C10: if the processor lacks the VMX feature flag or `IA32_FEATURE_CONTROL & 0x5` is not
`0x5`, `init` is `Hip::remove (Hip::FEAT_VMX)` and nothing else: afterwards no bit of
`FEAT_VMX` is in the feature word, and the fixed masks, `basic`, the control policies,
`ept_vpid`, `vpid_ctr`, `current`, CR0, CR4 are as before, and no request is made and no block
constructed. If the flag is present and `IA32_FEATURE_CONTROL & 0x5` is `0x5`, `init` leaves
the feature word as it is. -/
theorem init_capability_absence (K : Consts) (s : State) (root : Nat) :
    ((s.cpu_feat_vmx = false ∨ Msr.read32 s .IA32_FEATURE_CONTROL &&& 0x5 ≠ 0x5) →
      init K s root = { s with hip := u32 (s.hip &&& mnot K.FEAT_VMX) }
      ∧ (init K s root).hip &&& K.FEAT_VMX = 0
      ∧ (∀ i, K.FEAT_VMX.testBit i = false →
          (init K s root).hip.testBit i = (u32 s.hip).testBit i)
      ∧ (init K s root).fix_cr0_set = s.fix_cr0_set
      ∧ (init K s root).fix_cr0_clr = s.fix_cr0_clr
      ∧ (init K s root).fix_cr4_set = s.fix_cr4_set
      ∧ (init K s root).fix_cr4_clr = s.fix_cr4_clr
      ∧ (init K s root).basic = s.basic
      ∧ (init K s root).ctrl_pin = s.ctrl_pin
      ∧ (init K s root).ctrl_cpu0 = s.ctrl_cpu0
      ∧ (init K s root).ctrl_cpu1 = s.ctrl_cpu1
      ∧ (init K s root).ctrl_exi = s.ctrl_exi
      ∧ (init K s root).ctrl_ent = s.ctrl_ent
      ∧ (init K s root).ept_vpid = s.ept_vpid
      ∧ (init K s root).vpid_ctr = s.vpid_ctr
      ∧ (init K s root).current = s.current
      ∧ (init K s root).cr0 = s.cr0
      ∧ (init K s root).cr4 = s.cr4
      ∧ (init K s root).ops = s.ops
      ∧ (init K s root).blocks = s.blocks)
    ∧ (s.cpu_feat_vmx = true → Msr.read32 s .IA32_FEATURE_CONTROL &&& 0x5 = 0x5 →
      (init K s root).hip = s.hip) := by
  constructor
  · intro h
    have hc : (!s.cpu_feat_vmx || (Msr.read32 s .IA32_FEATURE_CONTROL &&& 0x5) != 0x5) = true := by
      rcases h with h | h
      · simp [h]
      · simp [h]
    have e : init K s root = { s with hip := u32 (s.hip &&& mnot K.FEAT_VMX) } := by
      unfold init
      rw [if_pos hc]
      rfl
    rw [e]
    refine ⟨rfl, ?_, ?_, rfl, rfl, rfl, rfl, rfl, rfl, rfl, rfl, rfl, rfl, rfl, rfl, rfl, rfl,
      rfl, rfl, rfl⟩
    · apply Nat.eq_of_testBit_eq
      intro i
      simp only [Nat.testBit_and, testBit_u32, testBit_mnot, Nat.zero_testBit]
      cases K.FEAT_VMX.testBit i <;> simp
    · intro i hi
      simp only [Nat.testBit_and, testBit_u32, testBit_mnot, hi]
      by_cases h32 : i < 32
      · have : i < 64 := by omega
        simp [h32, this]
      · simp [h32]
  · intro h1 h2
    have hc : ¬ (!s.cpu_feat_vmx || (Msr.read32 s .IA32_FEATURE_CONTROL &&& 0x5) != 0x5) = true := by
      simp [h1, h2]
    rw [init_steps, if_neg hc, Vmcs_root_hip, init_cr_hip, init_novpid_hip, init_vtlb_hip,
      init_set_hip, init_urg_hip, init_ept_ord_hip, init_ept_vpid_hip, init_secondary_hip,
      init_basic_hip, init_fixed_hip]

/-- Witness of C10: at `boot_state`, which lacks the feature flag, `init` clears `FEAT_VMX`
(`0x2`) in the feature word `0x7`; at `vmx_state` it leaves the feature word. -/
theorem init_capability_absence_witness :
    boot_state.cpu_feat_vmx = false
    ∧ (init sample_consts boot_state 0x10000).hip = 0x5
    ∧ (init sample_consts boot_state 0x10000).blocks = []
    ∧ vmx_state.cpu_feat_vmx = true
    ∧ Msr.read32 vmx_state .IA32_FEATURE_CONTROL &&& 0x5 = 0x5
    ∧ (init sample_consts vmx_state 0x10000).hip = 0x7 :=
  ⟨rfl,
    (congrArg State.hip
      ((init_capability_absence sample_consts boot_state 0x10000).1 (Or.inl rfl)).1).trans
      (by decide),
    ((init_capability_absence sample_consts boot_state 0x10000).1 (Or.inl rfl)).2.2.2.2.2.2.2.2.2.2.2.2.2.2.2.2.2.2.2,
    rfl, by decide,
    (init_capability_absence sample_consts vmx_state 0x10000).2 rfl (by decide)⟩

/-- C11: with VMX present and enabled, whatever the registers hold: if `Cmdline::vtlb` is set,
or the capability word `ept_vpid` that `init` leaves reports no `invept`, or no EPT support is
reported at all (`has_ept ()` is false once the capability words are read), then `CPU_EPT` is
0 in `ctrl_cpu[1].clr` after `init`; if `Cmdline::novpid` is set or `ept_vpid` reports no
`invvpid`, `CPU_VPID` is 0 in `ctrl_cpu[1].clr`; so a word `(m | ctrl_cpu[1].set) &
ctrl_cpu[1].clr` has none of these bits, although `init` has set `CPU_VPID` in
`ctrl_cpu[1].set`. -/
theorem init_feature_disabling (K : Consts) (s : State) (root : Nat)
    (h1 : s.cpu_feat_vmx = true) (h2 : Msr.read32 s .IA32_FEATURE_CONTROL &&& 0x5 = 0x5) :
    ((s.vtlb = true ∨ K.ept_vpid_invept (init K s root).ept_vpid = false
        ∨ has_ept K (init_probed K s) = false) →
      (init K s root).ctrl_cpu1.clr &&& K.CPU_EPT = 0
      ∧ ∀ mn, ((mn ||| (init K s root).ctrl_cpu1.set) &&& (init K s root).ctrl_cpu1.clr)
          &&& K.CPU_EPT = 0)
    ∧ ((s.novpid = true ∨ K.ept_vpid_invvpid (init K s root).ept_vpid = false) →
      (init K s root).ctrl_cpu1.clr &&& K.CPU_VPID = 0
      ∧ ∀ mn, ((mn ||| (init K s root).ctrl_cpu1.set) &&& (init K s root).ctrl_cpu1.clr)
          &&& K.CPU_VPID = 0)
    ∧ (init K s root).ctrl_cpu1.set &&& K.CPU_VPID = u32 K.CPU_VPID
    ∧ (init K s root).ept_vpid =
        (if has_ept K (init_secondary K (init_basic K (init_fixed s)))
            || has_vpid K (init_secondary K (init_basic K (init_fixed s))) then
          Msr.read64 s .IA32_VMX_EPT_VPID
        else s.ept_vpid) := by
  have hbit := init_clr_bit K s root h1 h2
  obtain ⟨e1, e2, _⟩ := init_final_fields K s root h1 h2
  have hword : ∀ (f mn : Nat), (init K s root).ctrl_cpu1.clr &&& f = 0 →
      ((mn ||| (init K s root).ctrl_cpu1.set) &&& (init K s root).ctrl_cpu1.clr) &&& f = 0 := by
    intro f mn h
    rw [Nat.land_assoc, h, Nat.and_zero]
  refine ⟨?_, ?_, ?_, ?_⟩
  · intro h
    have hz : (init K s root).ctrl_cpu1.clr &&& K.CPU_EPT = 0 := by
      apply land_eq_zero_of_bits
      intro i hi
      rw [hbit] at hi
      rcases h with h | h | h
      · simp only [h, Bool.true_or, Bool.not_true, Bool.false_or, Bool.and_eq_true,
          Bool.not_eq_true', Bool.or_eq_false_iff] at hi
        exact hi.1.2.1
      · simp only [h, Bool.not_false, Bool.or_true, Bool.not_true, Bool.false_or,
          Bool.and_eq_true, Bool.not_eq_true', Bool.or_eq_false_iff] at hi
        exact hi.1.2.1
      · have hp : (init_probed K s).ctrl_cpu1.clr &&& K.CPU_EPT = 0 := by
          simpa [has_ept] using h
        simp only [Bool.and_eq_true] at hi
        exact bits_of_land_eq_zero _ _ hp i hi.1.1
    exact ⟨hz, fun mn => hword _ mn hz⟩
  · intro h
    have hz : (init K s root).ctrl_cpu1.clr &&& K.CPU_VPID = 0 := by
      apply land_eq_zero_of_bits
      intro i hi
      rw [hbit] at hi
      rcases h with h | h
      · simp only [h, Bool.true_or, Bool.not_true, Bool.false_or, Bool.and_eq_true,
          Bool.not_eq_true'] at hi
        exact hi.2
      · simp only [h, Bool.not_false, Bool.or_true, Bool.not_true, Bool.false_or,
          Bool.and_eq_true, Bool.not_eq_true'] at hi
        exact hi.2
    exact ⟨hz, fun mn => hword _ mn hz⟩
  · rw [e1, (init_policy_ctrl_cpu1 K s).1]
    apply Nat.eq_of_testBit_eq
    intro i
    simp only [Nat.testBit_and, Nat.testBit_or, testBit_u32]
    cases K.CPU_VPID.testBit i <;> simp
  · rw [e2, init_probed_ept_vpid]

/-- Witness of C11 on `vmx_state`, whose `ept_vpid` reports neither `invept` nor `invvpid`:
of the clear mask `0xffffffff` read from the register, `init` leaves `0xffffff5d`, without
`CPU_EPT` (bit 1), `CPU_VPID` (bit 5) and `CPU_URG` (bit 7). -/
theorem init_feature_disabling_witness :
    vmx_state.cpu_feat_vmx = true
    ∧ Msr.read32 vmx_state .IA32_FEATURE_CONTROL &&& 0x5 = 0x5
    ∧ sample_consts.ept_vpid_invept (init sample_consts vmx_state 0x10000).ept_vpid = false
    ∧ (init sample_consts vmx_state 0x10000).ctrl_cpu1.clr = 0xffffff5d
    ∧ (init sample_consts vmx_state 0x10000).ctrl_cpu1.clr &&& sample_consts.CPU_EPT = 0 :=
  ⟨rfl, by decide, by decide, by decide,
    ((init_feature_disabling sample_consts vmx_state 0x10000 rfl (by decide)).1
      (Or.inr (Or.inl (by decide)))).1⟩

/-- C12: with VMX present and enabled, `init` sets CR0 to
`(old_CR0 & ~fix_cr0_clr) | fix_cr0_set` and CR4 to `(old_CR4 & ~fix_cr4_clr) | fix_cr4_set`,
where `fix_cr0_set` is `IA32_VMX_CR0_FIXED0` after the relaxation of line 125, `fix_cr4_set` is
`IA32_VMX_CR4_FIXED0` and `fix_*_clr` is the complement of `IA32_VMX_CR*_FIXED1`; so in each
register every bit of the forced-set mask is 1, every bit of the forced-clear mask that is
not in the forced-set mask is 0, and every bit in neither mask keeps its old value. -/
theorem init_forces_control_registers (K : Consts) (s : State) (root : Nat)
    (h1 : s.cpu_feat_vmx = true) (h2 : Msr.read32 s .IA32_FEATURE_CONTROL &&& 0x5 = 0x5) :
    (init K s root).cr0
        = (s.cr0 &&& mnot (init K s root).fix_cr0_clr) ||| (init K s root).fix_cr0_set
    ∧ (init K s root).cr4
        = (s.cr4 &&& mnot (init K s root).fix_cr4_clr) ||| (init K s root).fix_cr4_set
    ∧ (init K s root).fix_cr0_set =
        (if has_urg K (init_probed K s) then
          Msr.readm s .IA32_VMX_CR0_FIXED0 &&& not32 (K.CR0_PG ||| K.CR0_PE)
        else Msr.readm s .IA32_VMX_CR0_FIXED0)
    ∧ (init K s root).fix_cr0_clr = mnot (Msr.readm s .IA32_VMX_CR0_FIXED1)
    ∧ (init K s root).fix_cr4_set = Msr.readm s .IA32_VMX_CR4_FIXED0
    ∧ (init K s root).fix_cr4_clr = mnot (Msr.readm s .IA32_VMX_CR4_FIXED1)
    ∧ (∀ i, i < 64 →
        ((init K s root).fix_cr0_set.testBit i = true → (init K s root).cr0.testBit i = true)
        ∧ ((init K s root).fix_cr0_clr.testBit i = true →
            (init K s root).fix_cr0_set.testBit i = false →
            (init K s root).cr0.testBit i = false)
        ∧ ((init K s root).fix_cr0_set.testBit i = false →
            (init K s root).fix_cr0_clr.testBit i = false →
            (init K s root).cr0.testBit i = s.cr0.testBit i))
    ∧ (∀ i, i < 64 →
        ((init K s root).fix_cr4_set.testBit i = true → (init K s root).cr4.testBit i = true)
        ∧ ((init K s root).fix_cr4_clr.testBit i = true →
            (init K s root).fix_cr4_set.testBit i = false →
            (init K s root).cr4.testBit i = false)
        ∧ ((init K s root).fix_cr4_set.testBit i = false →
            (init K s root).fix_cr4_clr.testBit i = false →
            (init K s root).cr4.testBit i = s.cr4.testBit i)) := by
  obtain ⟨_, _, e3, e4, e5, e6, e7, e8⟩ := init_final_fields K s root h1 h2
  have l0 : (init K s root).fix_cr0_set < 2 ^ 64 := by
    rw [e3]; exact init_fix_cr0_set_lt K s
  have l4 : (init K s root).fix_cr4_set < 2 ^ 64 := by
    rw [e5]; exact mw_lt _
  have f0 := forced_bits s.cr0 _ (init K s root).fix_cr0_clr l0
  have f4 := forced_bits s.cr4 _ (init K s root).fix_cr4_clr l4
  rw [f0.1] at e7
  rw [f4.1] at e8
  refine ⟨e7, e8, e3, e4, e5, e6, ?_, ?_⟩
  · intro i hi; rw [e7]; exact f0.2 i hi
  · intro i hi; rw [e8]; exact f4.2 i hi

/-- Witness of C12 on `ept_vmx_state`: CR0 `0x80000011` with `fix_cr0_set = 0x20` (relaxed) and
no bit to clear becomes `0x80000031`; CR4 `0x20` with `fix_cr4_set = 0x2000` becomes
`0x2020`. On `wide_vmx_state`, whose `IA32_VMX_CR0_FIXED0` is `0xffffffff80000021`, the
relaxed mask is `0x20` as well and CR0 becomes `0x80000031`. -/
theorem init_forces_control_registers_witness :
    ept_vmx_state.cpu_feat_vmx = true
    ∧ Msr.read32 ept_vmx_state .IA32_FEATURE_CONTROL &&& 0x5 = 0x5
    ∧ (init sample_consts ept_vmx_state 0x10000).fix_cr0_set = 0x20
    ∧ (init sample_consts ept_vmx_state 0x10000).cr0 = 0x80000031
    ∧ (init sample_consts ept_vmx_state 0x10000).cr4 = 0x2020
    ∧ (init sample_consts ept_vmx_state 0x10000).cr0.testBit 5 = true
    ∧ (init sample_consts wide_vmx_state 0x10000).fix_cr0_set = 0x20
    ∧ (init sample_consts wide_vmx_state 0x10000).cr0 = 0x80000031 :=
  ⟨rfl, by decide, by decide, by decide, by decide,
    ((init_forces_control_registers sample_consts ept_vmx_state 0x10000 rfl (by decide)).2.2.2.2.2.2.1
      5 (by decide)).1 (by decide),
    by decide, by decide⟩

/-- C13 as it holds: with VMX present and enabled, if `has_urg ()` holds once the capability
words are read, `fix_cr0_set` has the bits `CR0_PG` and `CR0_PE` cleared and agrees with
`IA32_VMX_CR0_FIXED0` on every other bit below bit 32, hence on every other bit when the
register has no bit above bit 31; it is the register and the 32-bit complement of
`CR0_PG | CR0_PE`. If `has_urg ()` does not hold, `fix_cr0_set` is `IA32_VMX_CR0_FIXED0`
itself. The secondary policy that `has_urg ()` tests is the register `IA32_VMX_CTRL_CPU1` when
`has_secondary ()` holds and is what it was otherwise. -/
theorem init_urg_relaxation (K : Consts) (s : State) (root : Nat)
    (h1 : s.cpu_feat_vmx = true) (h2 : Msr.read32 s .IA32_FEATURE_CONTROL &&& 0x5 = 0x5) :
    (has_urg K (init_probed K s) = true →
      (init K s root).fix_cr0_set
          = Msr.readm s .IA32_VMX_CR0_FIXED0 &&& not32 (K.CR0_PG ||| K.CR0_PE)
      ∧ (∀ i, K.CR0_PG.testBit i = true ∨ K.CR0_PE.testBit i = true →
          (init K s root).fix_cr0_set.testBit i = false)
      ∧ (∀ i, i < 32 → K.CR0_PG.testBit i = false → K.CR0_PE.testBit i = false →
          (init K s root).fix_cr0_set.testBit i
            = (Msr.readm s .IA32_VMX_CR0_FIXED0).testBit i)
      ∧ (Msr.readm s .IA32_VMX_CR0_FIXED0 < 2 ^ 32 →
          ∀ i, K.CR0_PG.testBit i = false → K.CR0_PE.testBit i = false →
            (init K s root).fix_cr0_set.testBit i
              = (Msr.readm s .IA32_VMX_CR0_FIXED0).testBit i))
    ∧ (has_urg K (init_probed K s) = false →
      (init K s root).fix_cr0_set = Msr.readm s .IA32_VMX_CR0_FIXED0)
    ∧ (init_probed K s).ctrl_cpu1 =
        (if has_secondary K (init_basic K (init_fixed s)) then
          ⟨Msr.read64 s .IA32_VMX_CTRL_CPU1⟩
        else s.ctrl_cpu1) := by
  obtain ⟨_, _, e3, _⟩ := init_final_fields K s root h1 h2
  refine ⟨?_, ?_, init_probed_ctrl_cpu1 K s⟩
  · intro h
    rw [e3, if_pos h]
    refine ⟨rfl, ?_, ?_, ?_⟩
    · intro i hi
      simp only [Nat.testBit_and, testBit_not32, Nat.testBit_or]
      rcases hi with hi | hi <;> simp [hi]
    · intro i h32 hg he
      simp only [Nat.testBit_and, testBit_not32, Nat.testBit_or, hg, he, h32]
      simp
    · intro hlt i hg he
      simp only [Nat.testBit_and, testBit_not32, Nat.testBit_or, hg, he]
      by_cases h32 : i < 32
      · simp [h32]
      · simp [h32, testBit_of_lt_32 _ i hlt (by omega)]
  · intro h
    have hn : ¬ has_urg K (init_probed K s) = true := by simp [h]
    rw [e3, if_neg hn]

/-- Witness of the amended C13: on `ept_vmx_state` unrestricted guest is reported and
`0x80000021` is relaxed to `0x20`; on `plain_vmx_state`, without secondary controls, it stays
`0x80000021`. -/
theorem init_urg_relaxation_witness :
    has_urg sample_consts (init_probed sample_consts ept_vmx_state) = true
    ∧ Msr.readm ept_vmx_state .IA32_VMX_CR0_FIXED0 = 0x80000021
    ∧ (init sample_consts ept_vmx_state 0x10000).fix_cr0_set = 0x20
    ∧ has_urg sample_consts (init_probed sample_consts plain_vmx_state) = false
    ∧ (init sample_consts plain_vmx_state 0x10000).fix_cr0_set = 0x80000021 :=
  ⟨by decide, by decide,
    ((init_urg_relaxation sample_consts ept_vmx_state 0x10000 rfl (by decide)).1
      (by decide)).1.trans (by decide),
    by decide,
    ((init_urg_relaxation sample_consts plain_vmx_state 0x10000 rfl (by decide)).2.1
      (by decide)).trans (by decide)⟩

/-- C13 as stated fails on `wide_vmx_state`: unrestricted guest is reported and
`IA32_VMX_CR0_FIXED0` is `0xffffffff80000021`; bit 32 of the register is 1 and is neither
`CR0_PG` nor `CR0_PE`, yet `fix_cr0_set` is `0x20` and has bit 32 cleared, since line 125
complements `CR0_PG | CR0_PE` at 32 bits. -/
theorem urg_relaxation_clears_upper_half :
    wide_vmx_state.cpu_feat_vmx = true
    ∧ Msr.read32 wide_vmx_state .IA32_FEATURE_CONTROL &&& 0x5 = 0x5
    ∧ has_urg sample_consts (init_probed sample_consts wide_vmx_state) = true
    ∧ Msr.readm wide_vmx_state .IA32_VMX_CR0_FIXED0 = 0xffffffff80000021
    ∧ (Msr.readm wide_vmx_state .IA32_VMX_CR0_FIXED0).testBit 32 = true
    ∧ sample_consts.CR0_PG.testBit 32 = false
    ∧ sample_consts.CR0_PE.testBit 32 = false
    ∧ (init sample_consts wide_vmx_state 0x10000).fix_cr0_set = 0x20
    ∧ (init sample_consts wide_vmx_state 0x10000).fix_cr0_set.testBit 32 = false :=
  ⟨rfl, by decide, by decide, by decide, by decide, by decide, by decide, by decide, by decide⟩

/-- C14: for every 64-bit `eptp` the constructor writes `eptp | (Ept::max () - 1) << 3 | 6` to
`EPTP` and `eptp >> 32` to `EPTP_HI`; for `1 <= Ept::max () <= 8` the middle term is
`(Ept::max () - 1) << 3` without wrap, and for a page-aligned `eptp` bits 0 to 2 of the word
are the memory type 6, bits 3 to 5 are the walk length less one, and bits 12 and above are
those of `eptp`. -/
theorem ctor_eptp_encoding (K : Consts) (s : State) (this esp bmp cr3 eptp : Nat)
    (he : eptp < 2 ^ 64) :
    written .EPTP (Vmcs K s this esp bmp cr3 eptp).ops
        = written .EPTP s.ops ++ [eptp ||| mw (msub K.Ept_max 1 <<< 3) ||| 6]
    ∧ written .EPTP_HI (Vmcs K s this esp bmp cr3 eptp).ops
        = written .EPTP_HI s.ops ++ [eptp >>> 32]
    ∧ (1 ≤ K.Ept_max → K.Ept_max ≤ 8 →
        mw (msub K.Ept_max 1 <<< 3) = (K.Ept_max - 1) <<< 3
        ∧ (eptp % 4096 = 0 →
            (eptp ||| ((K.Ept_max - 1) <<< 3) ||| 6) % 8 = 6
            ∧ (eptp ||| ((K.Ept_max - 1) <<< 3) ||| 6) / 8 % 8 = K.Ept_max - 1
            ∧ (eptp ||| ((K.Ept_max - 1) <<< 3) ||| 6) / 4096 = eptp / 4096)) := by
  have hw : mw (mw eptp ||| mw (msub K.Ept_max 1 <<< 3) ||| 6)
      = eptp ||| mw (msub K.Ept_max 1 <<< 3) ||| 6 := by
    rw [mw_of_lt eptp he]
    exact mw_of_lt _ (Nat.or_lt_two_pow (Nat.or_lt_two_pow he (mw_lt _)) (by decide))
  have hh : mw (mw ((eptp % 2 ^ 64) >>> 32)) = eptp >>> 32 := by
    have hle : eptp >>> 32 ≤ eptp := by
      rw [Nat.shiftRight_eq_div_pow]
      exact Nat.div_le_self _ _
    rw [Nat.mod_eq_of_lt he, mw_of_lt _ (Nat.lt_of_le_of_lt hle he),
      mw_of_lt _ (Nat.lt_of_le_of_lt hle he)]
  refine ⟨?_, ?_, ?_⟩
  · rw [Vmcs_ops, written_append, ← hw]
    rfl
  · rw [Vmcs_ops, written_append, ← hh]
    rfl
  · intro h1 h8
    have hm : mw (msub K.Ept_max 1 <<< 3) = (K.Ept_max - 1) <<< 3 := by
      rw [msub_one _ h1 h8]
      apply mw_of_lt
      rw [Nat.shiftLeft_eq]
      omega
    refine ⟨hm, ?_⟩
    intro ha
    rw [eptp_word eptp K.Ept_max h1 h8 ha]
    omega

/-- Witness of C14 with `Ept::max () = 4`: for the root `0x1234567000` the constructor writes
`0x123456701e` to `EPTP` and `0x12` to `EPTP_HI`. -/
theorem ctor_eptp_encoding_witness :
    (0x1234567000 : Nat) < 2 ^ 64 ∧ sample_consts.Ept_max = 4
    ∧ written .EPTP (Vmcs sample_consts boot_state 0x10000 0 0 0 0x1234567000).ops
        = [0x123456701e]
    ∧ written .EPTP_HI (Vmcs sample_consts boot_state 0x10000 0 0 0 0x1234567000).ops
        = [0x12] :=
  ⟨by decide, rfl,
    (ctor_eptp_encoding sample_consts boot_state 0x10000 0 0 0 0x1234567000 (by decide)).1.trans
      (by decide),
    (ctor_eptp_encoding sample_consts boot_state 0x10000 0 0 0 0x1234567000 (by decide)).2.1.trans
      (by decide)⟩

/-- C19 as it holds: with VMX present and enabled, `CR0_PG` and `CR0_PE` are removed from
`fix_cr0_set` only if `CPU_URG` was 1 in `ctrl_cpu[1].clr` when `has_urg ()` was tested, once
the capability words were read and before the overrides; if `CPU_URG` is still 1 in
`ctrl_cpu[1].clr` when `init` finishes, they have been removed (`fix_cr0_set` is the register
`IA32_VMX_CR0_FIXED0` and the 32-bit complement of `CR0_PG | CR0_PE`); and when the first override
does not apply (`Cmdline::vtlb` is not set and `ept_vpid` reports `invept`) and `CPU_VPID` and
`CPU_URG` share no bit, they are removed only if `CPU_URG` is still 1 at the end. -/
theorem urg_relaxation_policy (K : Consts) (s : State) (root : Nat)
    (h1 : s.cpu_feat_vmx = true) (h2 : Msr.read32 s .IA32_FEATURE_CONTROL &&& 0x5 = 0x5) :
    ((init K s root).fix_cr0_set ≠ Msr.readm s .IA32_VMX_CR0_FIXED0 →
      has_urg K (init_probed K s) = true)
    ∧ (has_urg K (init K s root) = true →
      has_urg K (init_probed K s) = true
      ∧ (init K s root).fix_cr0_set
          = Msr.readm s .IA32_VMX_CR0_FIXED0 &&& not32 (K.CR0_PG ||| K.CR0_PE)
      ∧ (∀ i, K.CR0_PG.testBit i = true ∨ K.CR0_PE.testBit i = true →
          (init K s root).fix_cr0_set.testBit i = false))
    ∧ (s.vtlb = false → K.ept_vpid_invept (init K s root).ept_vpid = true →
      K.CPU_VPID &&& K.CPU_URG = 0 →
      (init K s root).fix_cr0_set ≠ Msr.readm s .IA32_VMX_CR0_FIXED0 →
      has_urg K (init K s root) = true) := by
  have hbit := init_clr_bit K s root h1 h2
  obtain ⟨_, _, e3, _⟩ := init_final_fields K s root h1 h2
  have hrel : (init K s root).fix_cr0_set ≠ Msr.readm s .IA32_VMX_CR0_FIXED0 →
      has_urg K (init_probed K s) = true := by
    intro hne
    cases hu : has_urg K (init_probed K s)
    · exfalso
      apply hne
      rw [e3, if_neg (by simp [hu])]
    · rfl
  have hstill : has_urg K (init K s root) = true → has_urg K (init_probed K s) = true := by
    intro hf
    cases hu : has_urg K (init_probed K s)
    · exfalso
      have hz := (has_urg_false_iff K _).mp hu
      have hz2 : (init K s root).ctrl_cpu1.clr &&& K.CPU_URG = 0 := by
        apply land_eq_zero_of_bits
        intro i hi
        rw [hbit] at hi
        simp only [Bool.and_eq_true] at hi
        exact bits_of_land_eq_zero _ _ hz i hi.1.1
      rw [(has_urg_false_iff K _).mpr hz2] at hf
      exact Bool.noConfusion hf
    · rfl
  refine ⟨hrel, ?_, ?_⟩
  · intro hf
    rw [e3, if_pos (hstill hf)]
    refine ⟨hstill hf, rfl, ?_⟩
    intro i hi
    simp only [Nat.testBit_and, testBit_not32, Nat.testBit_or]
    rcases hi with hi | hi <;> simp [hi]
  · intro hv hi hd hne
    have hp := hrel hne
    cases hu : has_urg K (init K s root)
    · exfalso
      have hz := (has_urg_false_iff K _).mp hu
      have hpz : (init_probed K s).ctrl_cpu1.clr &&& K.CPU_URG ≠ 0 := by
        intro h0
        rw [(has_urg_false_iff K _).mpr h0] at hp
        exact Bool.noConfusion hp
      obtain ⟨i, hb⟩ := Nat.ne_zero_implies_bit_true hpz
      rw [Nat.testBit_and, Bool.and_eq_true] at hb
      have hvp : K.CPU_VPID.testBit i = false := by
        rw [Nat.and_comm] at hd
        exact bits_of_land_eq_zero _ _ hd i hb.2
      have hfi : (init K s root).ctrl_cpu1.clr.testBit i = true := by
        rw [hbit, hb.1, hv, hi, hvp]
        simp
      exact land_ne_zero_of_bit _ _ i hfi hb.2 hz
    · rfl

/-- Witness of the amended C19 on `ept_vmx_state`, where no override applies: the relaxation
is made and `CPU_URG` is still in the clear mask at the end. -/
theorem urg_relaxation_policy_witness :
    ept_vmx_state.cpu_feat_vmx = true
    ∧ Msr.read32 ept_vmx_state .IA32_FEATURE_CONTROL &&& 0x5 = 0x5
    ∧ (init sample_consts ept_vmx_state 0x10000).fix_cr0_set = 0x20
    ∧ Msr.readm ept_vmx_state .IA32_VMX_CR0_FIXED0 = 0x80000021
    ∧ has_urg sample_consts (init sample_consts ept_vmx_state 0x10000) = true :=
  ⟨rfl, by decide, by decide, by decide,
    (urg_relaxation_policy sample_consts ept_vmx_state 0x10000 rfl (by decide)).2.2
      rfl (by decide) (by decide) (by decide)⟩

/-- C19 as stated fails on `vtlb_vmx_state`: the registers report unrestricted guest, so
`init` removes `CR0_PG | CR0_PE` (`0x80000001`) from `IA32_VMX_CR0_FIXED0 = 0x80000021`; the
flag `vtlb` then clears `CPU_URG` in `ctrl_cpu[1].clr`, and `fix_cr0_set` stays `0x20`. -/
theorem urg_relaxed_then_overridden :
    vtlb_vmx_state.cpu_feat_vmx = true
    ∧ Msr.read32 vtlb_vmx_state .IA32_FEATURE_CONTROL &&& 0x5 = 0x5
    ∧ Msr.readm vtlb_vmx_state .IA32_VMX_CR0_FIXED0 = 0x80000021
    ∧ sample_consts.CR0_PG ||| sample_consts.CR0_PE = 0x80000001
    ∧ (init sample_consts vtlb_vmx_state 0x10000).fix_cr0_set = 0x20
    ∧ (init sample_consts vtlb_vmx_state 0x10000).ctrl_cpu1.clr &&& sample_consts.CPU_URG = 0
    ∧ has_urg sample_consts (init sample_consts vtlb_vmx_state 0x10000) = false :=
  ⟨rfl, by decide, by decide, by decide, by decide, by decide, by decide⟩

end Vmcs

end NOVA
